import Mathlib

/-!
Verification of the rtvm bytecode virtual machine.

This file gives a shallow embedding of the instruction executor
(src/executor/executor/mod.rs) and of the bytecode decoder
(src/decoder/decoder.rs), and proves or refutes the specification claims
about them.

The executor and decoder sources are translated function by function.  The
collaborator modules they use (the `common` operand vocabulary, the `memory`
container, the `files` registry and the `primary` numeric trait surface) are
not part of the provided sources; those definitions are modelled from the
specification and are marked `Modelled from the spec:` in their doc comments.

Machine integers are embedded as `Nat` with explicit reduction modulo
`2 ^ width` where the source relies on wrapping semantics.  The host word
(`UWord`, the platform pointer width) is taken to be 64 bits.  Floating
point values are embedded as their raw IEEE-754 bit patterns; comparisons
and sign negation are defined bit-precisely, while host-rounded float
arithmetic and float conversions (explicitly host-defined in the spec) are
parameters of the semantics, collected in the `HostOps` structure.
-/

namespace Rtvm

/-- Width of the host word (`UWord`) in bits: the pointer width, taken as 64. -/
def wordBits : Nat := 64

/-- Size of the host word in bytes. -/
def wordSize : Nat := 8

/-- Modulus of host-word arithmetic. -/
def wordMod : Nat := 2 ^ 64

/-- Wrapping addition of two host words (`UWord::wrapping_add`). -/
def wadd (a b : Nat) : Nat := (a + b) % wordMod

/-- Wrapping subtraction of two host words (`usize::wrapping_sub`). -/
def wsub (a b : Nat) : Nat := (a + (wordMod - b % wordMod)) % wordMod

/-- Modelled from the spec: the primitive type tag `OpType` of the `common`
module, an enumeration of exactly twelve values (spec section 3). -/
inductive OpType where
  | U8 | I8 | U16 | I16 | U32 | I32 | U64 | I64 | Uw | Iw | F32 | F64
deriving DecidableEq

/-- Modelled from the spec: byte size of each primitive type; `Uw`/`Iw`
match the host pointer width (8 bytes). -/
def OpType.size : OpType → Nat
  | .U8 => 1 | .I8 => 1
  | .U16 => 2 | .I16 => 2
  | .U32 => 4 | .I32 => 4
  | .U64 => 8 | .I64 => 8
  | .Uw => 8 | .Iw => 8
  | .F32 => 4 | .F64 => 8

/-- Bit width of a primitive type. -/
def OpType.bits (t : OpType) : Nat := 8 * t.size

/-- Modelled from the spec: whether the type is a signed integer type. -/
def OpType.signed : OpType → Bool
  | .I8 | .I16 | .I32 | .I64 | .Iw => true
  | _ => false

/-- Modelled from the spec: whether the type is a floating point type. -/
def OpType.is_float : OpType → Bool
  | .F32 | .F64 => true
  | _ => false

/-- Mantissa bit count of a float type (23 for binary32, 52 for binary64). -/
def OpType.f_mant_bits : OpType → Nat
  | .F64 => 52
  | _ => 23

/-- Exponent bit count of a float type (8 for binary32, 11 for binary64). -/
def OpType.f_exp_bits : OpType → Nat
  | .F64 => 11
  | _ => 8

/-- Magnitude (bit pattern with the sign bit cleared) of a float value. -/
def fMag (t : OpType) (v : Nat) : Nat := v % 2 ^ t.bits % 2 ^ (t.bits - 1)

/-- Sign bit of a float value's bit pattern. -/
def fSign (t : OpType) (v : Nat) : Bool := decide (v % 2 ^ t.bits / 2 ^ (t.bits - 1) = 1)

/-- IEEE-754 NaN test on a raw bit pattern: exponent all ones and nonzero
mantissa. -/
def fNan (t : OpType) (v : Nat) : Bool :=
  decide (fMag t v / 2 ^ t.f_mant_bits = 2 ^ t.f_exp_bits - 1) &&
    decide (fMag t v % 2 ^ t.f_mant_bits ≠ 0)

/-- IEEE-754 `<` on raw bit patterns: false whenever an operand is NaN;
otherwise compare by sign and magnitude, with `-0 = +0`. -/
def fLt (t : OpType) (a b : Nat) : Bool :=
  !fNan t a && !fNan t b &&
    (if fSign t a then
      (if fSign t b then decide (fMag t b < fMag t a)
       else decide (¬(fMag t a = 0 ∧ fMag t b = 0)))
     else
      (if fSign t b then false
       else decide (fMag t a < fMag t b)))

/-- IEEE-754 `==` on raw bit patterns: false whenever an operand is NaN;
equal bit patterns are equal, and `-0 == +0`. -/
def fEq (t : OpType) (a b : Nat) : Bool :=
  !fNan t a && !fNan t b &&
    (decide (a % 2 ^ t.bits = b % 2 ^ t.bits) || (decide (fMag t a = 0) && decide (fMag t b = 0)))

/-- IEEE-754 `>` on raw bit patterns. -/
def fGt (t : OpType) (a b : Nat) : Bool := fLt t b a

/-- IEEE-754 `>=` on raw bit patterns (`a > b` or `a == b`, as in Rust). -/
def fGe (t : OpType) (a b : Nat) : Bool := fGt t a b || fEq t a b

/-- IEEE-754 `<=` on raw bit patterns (`a < b` or `a == b`, as in Rust). -/
def fLe (t : OpType) (a b : Nat) : Bool := fLt t a b || fEq t a b

/-- Two's-complement reading of a raw bit pattern at type `t` as an integer. -/
def toInt (t : OpType) (x : Nat) : Int :=
  if x % 2 ^ t.bits < 2 ^ (t.bits - 1) then ((x % 2 ^ t.bits : Nat) : Int)
  else ((x % 2 ^ t.bits : Nat) : Int) - 2 ^ t.bits

/-- Two's-complement encoding of an integer as a raw bit pattern at type `t`. -/
def ofInt (t : OpType) (z : Int) : Nat := (z % (2 ^ t.bits : Int)).toNat

/-- Numeric value of a raw integer bit pattern at type `t` (signed or not). -/
def intValue (t : OpType) (x : Nat) : Int :=
  if t.signed then toInt t x else ((x % 2 ^ t.bits : Nat) : Int)

/-- Modelled from the spec: host-defined floating point operations of the
`primary` module.  Spec section 1 makes float determinism across hosts a
non-goal, so rounded float arithmetic and all conversions touching a float
type are kept abstract; every theorem below holds for any instance.  The
functions act on and return raw bit patterns. -/
structure HostOps where
  f_add : OpType → Nat → Nat → Nat
  f_sub : OpType → Nat → Nat → Nat
  f_mul : OpType → Nat → Nat → Nat
  f_div : OpType → Nat → Nat → Nat
  f_mod : OpType → Nat → Nat → Nat
  f_inc : OpType → Nat → Nat
  f_dec : OpType → Nat → Nat
  f_cnv : OpType → OpType → Nat → Nat

/-- Modelled from the spec: wrapping addition of the `primary` module
(`Add::wrapping`), modular at the type's bit width; floats are host-rounded. -/
def addOp (h : HostOps) (t : OpType) (x y : Nat) : Nat :=
  if t.is_float then h.f_add t x y else (x + y) % 2 ^ t.bits

/-- Modelled from the spec: wrapping subtraction (`Sub::wrapping`). -/
def subOp (h : HostOps) (t : OpType) (x y : Nat) : Nat :=
  if t.is_float then h.f_sub t x y
  else (x % 2 ^ t.bits + (2 ^ t.bits - y % 2 ^ t.bits)) % 2 ^ t.bits

/-- Modelled from the spec: wrapping multiplication (`Mul::wrapping`). -/
def mulOp (h : HostOps) (t : OpType) (x y : Nat) : Nat :=
  if t.is_float then h.f_mul t x y else (x * y) % 2 ^ t.bits

/-- Modelled from the spec: wrapping division (`Div::wrapping`): truncated
division for signed integers (with `MIN / -1` wrapping), host division for
floats.  Only invoked by the executor after the zero-divisor check. -/
def divOp (h : HostOps) (t : OpType) (x y : Nat) : Nat :=
  if t.is_float then h.f_div t x y
  else if t.signed then ofInt t (Int.tdiv (toInt t x) (toInt t y))
  else x % 2 ^ t.bits / (y % 2 ^ t.bits)

/-- Modelled from the spec: wrapping remainder (`Rem::wrapping`): truncated
remainder for signed integers, host remainder for floats. -/
def modOp (h : HostOps) (t : OpType) (x y : Nat) : Nat :=
  if t.is_float then h.f_mod t x y
  else if t.signed then ofInt t (Int.tmod (toInt t x) (toInt t y))
  else x % 2 ^ t.bits % (y % 2 ^ t.bits)

/-- Modelled from the spec: wrapping negation (`Neg::wrapping`); float
negation is the exact IEEE sign-bit flip. -/
def negOp (t : OpType) (x : Nat) : Nat :=
  if t.is_float then x % 2 ^ t.bits ^^^ 2 ^ (t.bits - 1)
  else (2 ^ t.bits - x % 2 ^ t.bits) % 2 ^ t.bits

/-- Modelled from the spec: wrapping increment (`Inc::wrapping`). -/
def incOp (h : HostOps) (t : OpType) (x : Nat) : Nat :=
  if t.is_float then h.f_inc t x else (x + 1) % 2 ^ t.bits

/-- Modelled from the spec: wrapping decrement (`Dec::wrapping`). -/
def decOp (h : HostOps) (t : OpType) (x : Nat) : Nat :=
  if t.is_float then h.f_dec t x else (x % 2 ^ t.bits + (2 ^ t.bits - 1)) % 2 ^ t.bits

/-- Modelled from the spec: bitwise and at the type's width. -/
def andOp (t : OpType) (x y : Nat) : Nat := x % 2 ^ t.bits &&& y % 2 ^ t.bits

/-- Modelled from the spec: bitwise or at the type's width. -/
def orOp (t : OpType) (x y : Nat) : Nat := x % 2 ^ t.bits ||| y % 2 ^ t.bits

/-- Modelled from the spec: bitwise xor at the type's width. -/
def xorOp (t : OpType) (x y : Nat) : Nat := x % 2 ^ t.bits ^^^ y % 2 ^ t.bits

/-- Modelled from the spec: bitwise complement at the type's width. -/
def notOp (t : OpType) (x : Nat) : Nat := x % 2 ^ t.bits ^^^ (2 ^ t.bits - 1)

/-- Modelled from the spec: wrapping (modular-count) left shift by a `u8`
count (`Shl::wrapping`). -/
def shlOp (t : OpType) (x c : Nat) : Nat := (x % 2 ^ t.bits <<< (c % 256 % t.bits)) % 2 ^ t.bits

/-- Modelled from the spec: wrapping right shift by a `u8` count
(`Shr::wrapping`): logical for unsigned, arithmetic (floor) for signed. -/
def shrOp (t : OpType) (x c : Nat) : Nat :=
  if t.signed then ofInt t (Int.fdiv (toInt t x) (2 ^ (c % 256 % t.bits)))
  else x % 2 ^ t.bits >>> (c % 256 % t.bits)

/-- Modelled from the spec: total conversion between two primitive types
(`Convert::convert`): exact for integer-to-integer (truncate or extend),
host-defined when either side is a float. -/
def cnvOp (h : HostOps) (tSrc tDst : OpType) (x : Nat) : Nat :=
  if tSrc.is_float || tDst.is_float then h.f_cnv tSrc tDst x
  else ofInt tDst (intValue tSrc x)

/-- Modelled from the spec: the `y == T::zero()` divisor test of
`update_bin_division`; for floats this is IEEE equality with `0.0`
(so `-0.0` also counts as zero). -/
def isZeroVal (t : OpType) (y : Nat) : Bool :=
  if t.is_float then decide (fMag t y = 0) else decide (y % 2 ^ t.bits = 0)

/-- Equality test used by `exec_ife` (`==` on values of type `t`). -/
def eqTest (t : OpType) (x y : Nat) : Bool :=
  if t.is_float then fEq t x y else decide (x % 2 ^ t.bits = y % 2 ^ t.bits)

/-- Inequality test used by `exec_ine` (`!=`, the negation of `==` for every
Rust primitive type). -/
def neTest (t : OpType) (x y : Nat) : Bool := !eqTest t x y

/-- Strict-less test used by `exec_ifl` (`<` on values of type `t`). -/
def ltTest (t : OpType) (x y : Nat) : Bool :=
  if t.is_float then fLt t x y
  else if t.signed then decide (toInt t x < toInt t y)
  else decide (x % 2 ^ t.bits < y % 2 ^ t.bits)

/-- Strict-greater test used by `exec_ifg` (`>` on values of type `t`). -/
def gtTest (t : OpType) (x y : Nat) : Bool :=
  if t.is_float then fGt t x y
  else if t.signed then decide (toInt t y < toInt t x)
  else decide (y % 2 ^ t.bits < x % 2 ^ t.bits)

/-- Not-less test used by `exec_inl` (`>=` on values of type `t`, computed
directly, not as a negation). -/
def geTest (t : OpType) (x y : Nat) : Bool :=
  if t.is_float then fGe t x y
  else if t.signed then decide (toInt t y ≤ toInt t x)
  else decide (y % 2 ^ t.bits ≤ x % 2 ^ t.bits)

/-- Not-greater test used by `exec_ing` (`<=` on values of type `t`, computed
directly, not as a negation). -/
def leTest (t : OpType) (x y : Nat) : Bool :=
  if t.is_float then fLe t x y
  else if t.signed then decide (toInt t x ≤ toInt t y)
  else decide (x % 2 ^ t.bits ≤ y % 2 ^ t.bits)

/-- Test used by `exec_ifa`: `x & y != 0`. -/
def andNzTest (t : OpType) (x y : Nat) : Bool := decide (andOp t x y ≠ 0)

/-- Test used by `exec_ina`: `x & y == 0`. -/
def andZTest (t : OpType) (x y : Nat) : Bool := decide (andOp t x y = 0)

/-- Test used by `exec_ifo`: `x | y != 0`. -/
def orNzTest (t : OpType) (x y : Nat) : Bool := decide (orOp t x y ≠ 0)

/-- Test used by `exec_ino`: `x | y == 0`. -/
def orZTest (t : OpType) (x y : Nat) : Bool := decide (orOp t x y = 0)

/-- Test used by `exec_ifx`: `x ^ y != 0`. -/
def xorNzTest (t : OpType) (x y : Nat) : Bool := decide (xorOp t x y ≠ 0)

/-- Test used by `exec_inx`: `x ^ y == 0`. -/
def xorZTest (t : OpType) (x y : Nat) : Bool := decide (xorOp t x y = 0)

/-- Truth test used by `Ift` (`value != 0`, IEEE `!= 0.0` for floats, which
is true for NaN). -/
def isTrueTest (t : OpType) (x : Nat) : Bool :=
  if t.is_float then !fEq t x 0 else decide (x % 2 ^ t.bits ≠ 0)

/-- Zero test used by `Iff` (`value == 0`, IEEE `== 0.0` for floats). -/
def isFalseTest (t : OpType) (x : Nat) : Bool :=
  if t.is_float then fEq t x 0 else decide (x % 2 ^ t.bits = 0)

/-- Modelled from the spec: the `Operand` sum of the `common` module
(spec section 3): frame offset, indirection, return slot, immediate,
address literal, global address, or empty. -/
inductive Operand where
  | Loc (u : Nat)
  | Ind (u : Nat)
  | Ret (u : Nat)
  | Val (u : Nat)
  | Ref (u : Nat)
  | Glb (u : Nat)
  | Emp
deriving DecidableEq

/-- Modelled from the spec: `Operand::map` applies a function to the
operand's numeric payload (used by offset application, spec section 4.1);
`Emp` is unchanged. -/
def Operand.map (f : Nat → Nat) : Operand → Operand
  | .Loc u => .Loc (f u)
  | .Ind u => .Ind (f u)
  | .Ret u => .Ret (f u)
  | .Val u => .Val (f u)
  | .Ref u => .Ref (f u)
  | .Glb u => .Glb (f u)
  | .Emp => .Emp

/-- Modelled from the spec: a `UnOp` is an operand with an optional `First`
offset (spec section 3). -/
inductive UnOp where
  | None (x : Operand)
  | First (x offset : Operand)
deriving DecidableEq

/-- Modelled from the spec: `UnOp::new`. -/
def UnOp.new (x : Operand) : UnOp := .None x

/-- Modelled from the spec: `UnOp::x`, the primary operand. -/
def UnOp.x : UnOp → Operand
  | .None x => x
  | .First x _ => x

/-- Modelled from the spec: `UnOp::with_first` attaches a `First` offset. -/
def UnOp.with_first : UnOp → Operand → UnOp
  | .None x, o => .First x o
  | .First x _, o => .First x o

/-- Modelled from the spec: a `BinOp` is a pair of operands with an optional
offset displacing the first, the second, or both (spec section 3). -/
inductive BinOp where
  | None (x y : Operand)
  | First (x y offset : Operand)
  | Second (x y offset : Operand)
  | Both (x y offset : Operand)
deriving DecidableEq

/-- Modelled from the spec: `BinOp::new`. -/
def BinOp.new (x y : Operand) : BinOp := .None x y

/-- Modelled from the spec: `BinOp::with_first`. -/
def BinOp.with_first : BinOp → Operand → BinOp
  | .None x y, o | .First x y _, o | .Second x y _, o | .Both x y _, o => .First x y o

/-- Modelled from the spec: `BinOp::with_second`. -/
def BinOp.with_second : BinOp → Operand → BinOp
  | .None x y, o | .First x y _, o | .Second x y _, o | .Both x y _, o => .Second x y o

/-- Modelled from the spec: `BinOp::with_both`. -/
def BinOp.with_both : BinOp → Operand → BinOp
  | .None x y, o | .First x y _, o | .Second x y _, o | .Both x y _, o => .Both x y o

/-- The operation vocabulary (`Op` of the `common` module), as enumerated in
spec section 3 and dispatched by `Executor::execute`. -/
inductive Op where
  | Nop
  | End (x : Operand)
  | Slp (x : Operand)
  | Set (bin : BinOp) (t : OpType)
  | Cnv (x y : Operand) (t u : OpType)
  | Add (bin : BinOp) (t : OpType)
  | Sub (bin : BinOp) (t : OpType)
  | Mul (bin : BinOp) (t : OpType)
  | Div (bin : BinOp) (t : OpType)
  | Mod (bin : BinOp) (t : OpType)
  | Shl (x y : Operand) (t : OpType)
  | Shr (x y : Operand) (t : OpType)
  | And (bin : BinOp) (t : OpType)
  | Or (bin : BinOp) (t : OpType)
  | Xor (bin : BinOp) (t : OpType)
  | Not (un : UnOp) (t : OpType)
  | Neg (un : UnOp) (t : OpType)
  | Inc (un : UnOp) (t : OpType)
  | Dec (un : UnOp) (t : OpType)
  | Go (x : Operand)
  | Ift (un : UnOp) (t : OpType)
  | Iff (un : UnOp) (t : OpType)
  | Ife (bin : BinOp) (t : OpType)
  | Ifl (bin : BinOp) (t : OpType)
  | Ifg (bin : BinOp) (t : OpType)
  | Ine (bin : BinOp) (t : OpType)
  | Inl (bin : BinOp) (t : OpType)
  | Ing (bin : BinOp) (t : OpType)
  | Ifa (bin : BinOp) (t : OpType)
  | Ifo (bin : BinOp) (t : OpType)
  | Ifx (bin : BinOp) (t : OpType)
  | Ina (bin : BinOp) (t : OpType)
  | Ino (bin : BinOp) (t : OpType)
  | Inx (bin : BinOp) (t : OpType)
  | App (x : Operand)
  | Par (un : UnOp) (t : OpType)
  | Clf (x : Operand)
  | Ret (un : UnOp) (t : OpType)
  | In (bin : BinOp)
  | Out (un : UnOp)
  | Fls
  | Sfd (x : Operand)
  | Gfd (x : Operand)
  | Zer (x y : Operand)
  | Cmp (x y z : Operand)
  | Cpy (x y z : Operand)
deriving DecidableEq

/-- Modelled from the spec: `Op::is_conditional`, a pure predicate over
opcode identity (spec sections 4.2 and 9): the conditional tests
`Ift/Iff/Ife/.../Inx` and `Cmp`. -/
def Op.is_conditional : Op → Bool
  | .Ift _ _ | .Iff _ _
  | .Ife _ _ | .Ifl _ _ | .Ifg _ _ | .Ine _ _ | .Inl _ _ | .Ing _ _
  | .Ifa _ _ | .Ifo _ _ | .Ifx _ _ | .Ina _ _ | .Ino _ _ | .Inx _ _
  | .Cmp _ _ _ => true
  | _ => false

/-- Modelled from the spec: the error type of the `memory` module
(out-of-bounds get/set/zero/copy/compare, spec section 7). -/
inductive MemoryError where
  | outOfBounds
deriving DecidableEq

/-- Modelled from the spec: the error type of the `files` registry
(bad handle and friends, spec section 7). -/
inductive FilesError where
  | badHandle
deriving DecidableEq

/-- Modelled from the spec: the memory container — a growable stack region
addressed from 0 with a capacity limit, and a global (heap) region placed
after the stack capacity (spec sections 2 and 3).  Bytes are `Nat`s below
256. -/
structure Memory where
  stack_limit : Nat
  stack : List Nat
  heap : List Nat
deriving DecidableEq

/-- Modelled from the spec: `Memory::from_limits` — empty stack with the
given capacity, zeroed global region of the given size. -/
def Memory.from_limits (stack_limit heap_limit : Nat) : Memory :=
  ⟨stack_limit, [], List.replicate heap_limit 0⟩

/-- Modelled from the spec: read `n` raw bytes at absolute address `addr`,
entirely inside the live stack or entirely inside the global region;
anything else is out of bounds. -/
def Memory.read_bytes (m : Memory) (addr n : Nat) : Except MemoryError (List Nat) :=
  if addr + n ≤ m.stack.length then .ok ((m.stack.drop addr).take n)
  else if m.stack_limit ≤ addr ∧ addr + n ≤ m.stack_limit + m.heap.length then
    .ok ((m.heap.drop (addr - m.stack_limit)).take n)
  else .error .outOfBounds

/-- Overwrite the bytes of `l` starting at `addr` with `bs`. -/
def spliceBytes (l : List Nat) (addr : Nat) (bs : List Nat) : List Nat :=
  l.take addr ++ bs ++ l.drop (addr + bs.length)

/-- Modelled from the spec: write raw bytes at absolute address `addr`,
bounds-checked like `Memory.read_bytes`. -/
def Memory.write_bytes (m : Memory) (addr : Nat) (bs : List Nat) : Except MemoryError Memory :=
  if addr + bs.length ≤ m.stack.length then
    .ok { m with stack := spliceBytes m.stack addr bs }
  else if m.stack_limit ≤ addr ∧ addr + bs.length ≤ m.stack_limit + m.heap.length then
    .ok { m with heap := spliceBytes m.heap (addr - m.stack_limit) bs }
  else .error .outOfBounds

/-- Little-endian decoding of a byte list into a raw bit pattern. -/
def fromLeBytes (bs : List Nat) : Nat := bs.foldr (fun b acc => b % 256 + 256 * acc) 0

/-- Little-endian encoding of a raw bit pattern into `n` bytes. -/
def toLeBytes : Nat → Nat → List Nat
  | 0, _ => []
  | n + 1, v => v % 256 :: toLeBytes n (v / 256)

/-- Modelled from the spec: typed `Memory::get` — read `sz` bytes at a byte
offset and decode them little-endian. -/
def Memory.get (m : Memory) (addr sz : Nat) : Except MemoryError Nat :=
  (m.read_bytes addr sz).map fromLeBytes

/-- Modelled from the spec: typed `Memory::set` — encode `sz` bytes
little-endian and write them at a byte offset. -/
def Memory.set (m : Memory) (addr sz v : Nat) : Except MemoryError Memory :=
  m.write_bytes addr (toLeBytes sz v)

/-- Modelled from the spec: `stack.expand` grows the stack by `n` zero bytes,
failing if the capacity would be exceeded. -/
def Memory.expand (m : Memory) (n : Nat) : Except MemoryError Memory :=
  if m.stack.length + n ≤ m.stack_limit then
    .ok { m with stack := m.stack ++ List.replicate n 0 }
  else .error .outOfBounds

/-- Modelled from the spec: `stack.narrow` removes the last `n` stack bytes,
failing if fewer are live. -/
def Memory.narrow (m : Memory) (n : Nat) : Except MemoryError Memory :=
  if n ≤ m.stack.length then
    .ok { m with stack := m.stack.take (m.stack.length - n) }
  else .error .outOfBounds

/-- Modelled from the spec: `Memory::set_zeros` over `(dest, size)`. -/
def Memory.set_zeros (m : Memory) (dest n : Nat) : Except MemoryError Memory :=
  m.write_bytes dest (List.replicate n 0)

/-- Modelled from the spec: `Memory::compare` over `(a, b, size)` — raw byte
comparison. -/
def Memory.compare (m : Memory) (a b n : Nat) : Except MemoryError Bool := do
  let ba ← m.read_bytes a n
  let bb ← m.read_bytes b n
  pure (ba = bb)

/-- Modelled from the spec: `Memory::copy` over `(dest, src, size)` — raw
byte copy, reading the source before writing (forward copy). -/
def Memory.copy (m : Memory) (dest src n : Nat) : Except MemoryError Memory := do
  let bs ← m.read_bytes src n
  m.write_bytes dest bs

/-- Modelled from the spec: one byte stream of the file registry, with an
input side (consumed by `read`) and an output side (grown by `write`). -/
structure FileStream where
  input : List Nat
  output : List Nat
deriving DecidableEq

/-- Modelled from the spec: the file registry — a table of optionally open
streams and an optional current handle (spec section 6). -/
structure Files where
  streams : List (Option FileStream)
  current : Option Nat
deriving DecidableEq

/-- Modelled from the spec: `Files::new`, with no streams and no current
handle. -/
def Files.new : Files := ⟨[], none⟩

/-- Modelled from the spec: read one byte from the current stream; `none`
signals end of input, a missing or closed current handle is an error. -/
def Files.read (f : Files) : Except FilesError (Option Nat × Files) :=
  match f.current with
  | none => .error .badHandle
  | some h =>
    match f.streams.get? h with
    | some (some s) =>
      match s.input with
      | [] => .ok (none, f)
      | b :: rest => .ok (some b, { f with streams := f.streams.set h (some ⟨rest, s.output⟩) })
    | _ => .error .badHandle

/-- Modelled from the spec: write one byte to the current stream. -/
def Files.write (f : Files) (b : Nat) : Except FilesError Files :=
  match f.current with
  | none => .error .badHandle
  | some h =>
    match f.streams.get? h with
    | some (some s) =>
      .ok { f with streams := f.streams.set h (some ⟨s.input, s.output ++ [b % 256]⟩) }
    | _ => .error .badHandle

/-- Modelled from the spec: flush the current stream (a no-op for the
modelled byte buffers, but still requiring a valid current handle). -/
def Files.flush (f : Files) : Except FilesError Files :=
  match f.current with
  | none => .error .badHandle
  | some h =>
    match f.streams.get? h with
    | some (some _) => .ok f
    | _ => .error .badHandle

/-- Modelled from the spec: the current file descriptor. -/
def Files.current_fd (f : Files) : Except FilesError Nat :=
  match f.current with
  | none => .error .badHandle
  | some h => .ok h

/-- Modelled from the spec: select the current handle, requiring it to be
open. -/
def Files.set_current (f : Files) (h : Nat) : Except FilesError Files :=
  match f.streams.get? h with
  | some (some _) => .ok { f with current := some h }
  | _ => .error .badHandle

/-- A function of the program: a frame size and an ordered operation list
(`Function` in src/executor/executor/mod.rs). -/
structure Func where
  frame_size : Nat
  program : List Op
deriving DecidableEq

/-- A call-stack record (`FunctionCall` in src/executor/executor/mod.rs).
The Rust struct borrows its `Function`; the embedding stores it by value,
which is equivalent because functions are immutable. -/
structure FunctionCall where
  function : Func
  base_ptr : Nat
  ret_val_ptr : Nat
  ret_program_counter : Nat
deriving DecidableEq

/-- The executor error taxonomy (`ExecutionError` in
src/executor/executor/mod.rs). -/
inductive ExecutionError where
  | EndOfProgram
  | MemoryError (e : MemoryError)
  | FilesError (e : FilesError)
  | IncorrectOperation (op : Op)
  | UnknownFunction (id : Nat)
  | OperationOverflow
  | DivisionByZero
  | NullPointerDereference
deriving DecidableEq

/-- The executor success values (`ExecutionSuccess` in
src/executor/executor/mod.rs). -/
inductive ExecutionSuccess where
  | Ok
  | End (v : Nat)
  | Sleep (v : Nat)
deriving DecidableEq

/-- The executor state (`Executor` in src/executor/executor/mod.rs).  The
call stack is kept in source order: pushes append at the end, the last
element is the top. -/
structure Executor where
  functions : List Func
  memory : Memory
  program_counter : Nat
  call_stack : List FunctionCall
  prepared_call : Bool
  parameter_ptr : Nat
  files : Files
deriving DecidableEq

/-- `Executor::from_limits`. -/
def Executor.from_limits (functions : List Func) (stack_limit heap_limit : Nat) : Executor :=
  ⟨functions, Memory.from_limits stack_limit heap_limit, 0, [], false, 0, Files.new⟩

/-- `Executor::new` (`STACK_LIMIT = HEAP_LIMIT = 2048`). -/
def Executor.new (functions : List Func) : Executor :=
  Executor.from_limits functions 2048 2048

/-- Lift a memory result into the executor error type (the `From` impl). -/
def memRes {α : Type} : Except MemoryError α → Except ExecutionError α
  | .ok a => .ok a
  | .error e => .error (.MemoryError e)

/-- Lift a files result into the executor error type (the `From` impl). -/
def filesRes {α : Type} : Except FilesError α → Except ExecutionError α
  | .ok a => .ok a
  | .error e => .error (.FilesError e)

/-- `Executor::app`: look the function up, push a prepared call record whose
base is the current stack length, set `prepared_call`, then expand the stack
by the frame size.  On expansion failure the push and the flag remain (the
Rust method mutates `self` before the fallible expand). -/
def Executor.app (e : Executor) (function_id : Nat) : Executor × Except ExecutionError Unit :=
  match e.functions.get? function_id with
  | none => (e, .error (.UnknownFunction function_id))
  | some f =>
    let e1 := { e with
      call_stack := e.call_stack ++ [(⟨f, e.memory.stack.length, 0, 0⟩ : FunctionCall)],
      prepared_call := true }
    match e1.memory.expand f.frame_size with
    | .ok m => ({ e1 with memory := m }, .ok ())
    | .error er => (e1, .error (.MemoryError er))

/-- `Executor::clf`: record the return-value pointer and the resume PC
(`program_counter + 1`) in the top call record, clear `prepared_call`, zero
the PC and the parameter pointer. -/
def Executor.clf (e : Executor) (ret_val_ptr : Nat) : Executor × Except ExecutionError Unit :=
  match e.call_stack.getLast? with
  | none => (e, .error .EndOfProgram)
  | some top =>
    ({ e with
        call_stack := e.call_stack.dropLast ++
          [{ top with ret_val_ptr := ret_val_ptr,
                      ret_program_counter := wadd e.program_counter 1 }],
        prepared_call := false,
        program_counter := 0,
        parameter_ptr := 0 }, .ok ())

/-- `Executor::call`: `app` then `clf`; `clf` runs only if `app` succeeded. -/
def Executor.call (e : Executor) (function_id ret_val_ptr : Nat) :
    Executor × Except ExecutionError Unit :=
  match e.app function_id with
  | (e1, .ok _) => e1.clf ret_val_ptr
  | (e1, .error er) => (e1, .error er)

/-- `Executor::ret`: pop the top call record, restore the PC from its
`ret_program_counter`, then narrow the stack by its frame size.  On narrow
failure the pop and the PC restore remain. -/
def Executor.ret (e : Executor) : Executor × Except ExecutionError Unit :=
  match e.call_stack.getLast? with
  | none => (e, .error .EndOfProgram)
  | some top =>
    let e1 := { e with
      call_stack := e.call_stack.dropLast,
      program_counter := top.ret_program_counter }
    match e1.memory.narrow top.function.frame_size with
    | .ok m => ({ e1 with memory := m }, .ok ())
    | .error er => (e1, .error (.MemoryError er))

/-- `Executor::current_call`: the second-from-top record (index computed by
a wrapping subtraction and looked up with a checked `get`) while a call is
prepared, the top record otherwise. -/
def Executor.current_call (e : Executor) : Except ExecutionError FunctionCall :=
  match (if e.prepared_call then e.call_stack.get? (wsub e.call_stack.length 2)
         else e.call_stack.getLast?) with
  | some c => .ok c
  | none => .error .EndOfProgram

/-- `Executor::current_op`: the operation at the PC of the current call's
program. -/
def Executor.current_op (e : Executor) : Except ExecutionError Op := do
  let c ← e.current_call
  match c.function.program.get? e.program_counter with
  | some op => .ok op
  | none => .error .EndOfProgram

/-- One iteration layer of `Executor::pass_condition`, with explicit fuel:
increment the PC; stop past the first non-conditional op, keep scanning over
conditionals, and fail (with the PC already moved) when the program runs
out. -/
def Executor.pass_condition_fuel : Nat → Executor → Executor × Except ExecutionError Unit
  | 0, e => (e, .error .EndOfProgram)
  | fuel + 1, e =>
    let e1 := { e with program_counter := wadd e.program_counter 1 }
    match e1.current_op with
    | .error er => (e1, .error er)
    | .ok op =>
      if op.is_conditional then Executor.pass_condition_fuel fuel e1
      else ({ e1 with program_counter := wadd e1.program_counter 1 }, .ok ())

/-- `Executor::pass_condition`.  The fuel (program length plus two) always
dominates the source loop, which stops at the first out-of-range PC. -/
def Executor.pass_condition (e : Executor) : Executor × Except ExecutionError Unit :=
  match e.current_call with
  | .error er => (e, .error er)
  | .ok c => Executor.pass_condition_fuel (c.function.program.length + 2) e

/-- `Executor::get_val::<T>`: read a raw value of `sz` bytes through an
operand (spec section 4.1); `T::from_word` truncates the word to the low
`sz` bytes. -/
def Executor.get_val (e : Executor) (sz : Nat) (o : Operand) : Except ExecutionError Nat :=
  match o with
  | .Loc loc => do
    let c ← e.current_call
    memRes (e.memory.get (wadd c.base_ptr loc) sz)
  | .Ind ptr =>
    if ptr = 0 then .error .NullPointerDereference
    else do
      let c ← e.current_call
      let addr ← memRes (e.memory.get (wadd c.base_ptr ptr) wordSize)
      memRes (e.memory.get addr sz)
  | .Ret ret => do
    let c ← e.current_call
    memRes (e.memory.get (wadd c.ret_val_ptr ret) sz)
  | .Val v => .ok (v % 2 ^ (8 * sz))
  | .Ref var => do
    let c ← e.current_call
    .ok (wadd c.base_ptr var % 2 ^ (8 * sz))
  | .Glb ptr => memRes (e.memory.get ptr sz)
  | .Emp =>
    match e.current_op with
    | .ok op => .error (.IncorrectOperation op)
    | .error er => .error er

/-- `Executor::set_val::<T>`: write a raw value of `sz` bytes through an
operand; `Val`, `Ref` and `Emp` are rejected with `IncorrectOperation` of
the current op.  Errors leave the state unchanged (the memory write is
atomic), so only the successful new state is returned. -/
def Executor.set_val (e : Executor) (sz : Nat) (o : Operand) (v : Nat) :
    Except ExecutionError Executor :=
  match o with
  | .Loc loc => do
    let c ← e.current_call
    let m ← memRes (e.memory.set (wadd c.base_ptr loc) sz v)
    .ok { e with memory := m }
  | .Ind ptr =>
    if ptr = 0 then .error .NullPointerDereference
    else do
      let c ← e.current_call
      let addr ← memRes (e.memory.get (wadd c.base_ptr ptr) wordSize)
      let m ← memRes (e.memory.set addr sz v)
      .ok { e with memory := m }
  | .Ret ret => do
    let c ← e.current_call
    let m ← memRes (e.memory.set (wadd c.ret_val_ptr ret) sz v)
    .ok { e with memory := m }
  | .Val _ =>
    match e.current_op with
    | .ok op => .error (.IncorrectOperation op)
    | .error er => .error er
  | .Ref _ =>
    match e.current_op with
    | .ok op => .error (.IncorrectOperation op)
    | .error er => .error er
  | .Glb ptr => do
    let m ← memRes (e.memory.set ptr sz v)
    .ok { e with memory := m }
  | .Emp =>
    match e.current_op with
    | .ok op => .error (.IncorrectOperation op)
    | .error er => .error er

/-- `Executor::make_offset`: read the offset operand as a word and
wrapping-add it to the target operand's payload. -/
def Executor.make_offset (e : Executor) (a offset : Operand) : Except ExecutionError Operand := do
  let a_offset ← e.get_val wordSize offset
  .ok (a.map (fun u => wadd u a_offset))

/-- `Executor::read_un_operand`. -/
def Executor.read_un_operand (e : Executor) (un : UnOp) : Except ExecutionError Operand :=
  match un with
  | .None x => .ok x
  | .First x offset => e.make_offset x offset

/-- `Executor::read_bin_operands`. -/
def Executor.read_bin_operands (e : Executor) (bin : BinOp) :
    Except ExecutionError (Operand × Operand) :=
  match bin with
  | .None x y => .ok (x, y)
  | .First x y offset => do
    let x1 ← e.make_offset x offset
    .ok (x1, y)
  | .Second x y offset => do
    let y1 ← e.make_offset y offset
    .ok (x, y1)
  | .Both x y offset => do
    let x1 ← e.make_offset x offset
    let y1 ← e.make_offset y offset
    .ok (x1, y1)

/-- `Executor::get_un`. -/
def Executor.get_un (e : Executor) (sz : Nat) (un : UnOp) : Except ExecutionError Nat := do
  let left ← e.read_un_operand un
  e.get_val sz left

/-- `Executor::update_un`: resolve the operand, read it, apply `f`, write it
back. -/
def Executor.update_un (e : Executor) (sz : Nat) (un : UnOp) (f : Nat → Nat) :
    Except ExecutionError Executor := do
  let left ← e.read_un_operand un
  let x ← e.get_val sz left
  e.set_val sz left (f x)

/-- `Executor::update_bin`: resolve both operands, read both, apply `f`,
write the result to the first. -/
def Executor.update_bin (e : Executor) (sz : Nat) (bin : BinOp) (f : Nat → Nat → Nat) :
    Except ExecutionError Executor := do
  let (left, right) ← e.read_bin_operands bin
  let x ← e.get_val sz left
  let y ← e.get_val sz right
  e.set_val sz left (f x y)

/-- `Executor::update_bin_division`: like `update_bin`, but when the divisor
reads as zero the closure yields `T::zero()` — which `update_bin` writes to
the destination — and the error `DivisionByZero` is reported afterwards,
overriding even a failed write. -/
def Executor.update_bin_division (e : Executor) (t : OpType) (bin : BinOp)
    (f : Nat → Nat → Nat) : Executor × Except ExecutionError Unit :=
  match e.read_bin_operands bin with
  | .error er => (e, .error er)
  | .ok (left, right) =>
    match e.get_val t.size left with
    | .error er => (e, .error er)
    | .ok x =>
      match e.get_val t.size right with
      | .error er => (e, .error er)
      | .ok y =>
        if isZeroVal t y then
          match e.set_val t.size left 0 with
          | .ok e1 => (e1, .error .DivisionByZero)
          | .error _ => (e, .error .DivisionByZero)
        else
          match e.set_val t.size left (f x y) with
          | .ok e1 => (e1, .ok ())
          | .error er => (e, .error er)

/-- `Executor::exec_cnv`: read the source as `t`, convert to `u`, write the
destination as `u`. -/
def Executor.exec_cnv (e : Executor) (h : HostOps) (x y : Operand) (t u : OpType) :
    Except ExecutionError Executor := do
  let v ← e.get_val t.size y
  e.set_val u.size x (cnvOp h t u v)

/-- `Executor::exec_shl` / `exec_shr` shape: read the target as `t`, the
count as `u8`, shift and write back. -/
def Executor.exec_shift (e : Executor) (t : OpType) (x y : Operand)
    (f : OpType → Nat → Nat → Nat) : Except ExecutionError Executor := do
  let xv ← e.get_val t.size x
  let yv ← e.get_val 1 y
  e.set_val t.size x (f t xv yv)

/-- `Executor::exec_par`: take the frame size of the current (caller) call,
place the parameter at `parameter_ptr + frame_size`, advance
`parameter_ptr` by the type size, then read the argument and write it
through `Loc(parameter_loc)` — still resolved in the caller's context. -/
def Executor.exec_par (e : Executor) (t : OpType) (un : UnOp) :
    Executor × Except ExecutionError Unit :=
  match e.current_call with
  | .error er => (e, .error er)
  | .ok c =>
    let parameter_loc := wadd e.parameter_ptr c.function.frame_size
    let e1 := { e with parameter_ptr := wadd e.parameter_ptr t.size }
    match e1.get_un t.size un with
    | .error er => (e1, .error er)
    | .ok v =>
      match e1.set_val t.size (.Loc parameter_loc) v with
      | .error er => (e1, .error er)
      | .ok e2 => (e2, .ok ())

/-- `Executor::set_ret`: read the resolved unop source and write it through
`Ret(0)` (the callee record's `ret_val_ptr`). -/
def Executor.set_ret (e : Executor) (sz : Nat) (un : UnOp) : Except ExecutionError Executor := do
  let right ← e.read_un_operand un
  let v ← e.get_val sz right
  e.set_val sz (.Ret 0) v

/-- Advance the program counter by one (the `wrapping_add(1)` at the bottom
of `execute`, applied only on non-early-returning success). -/
def Executor.advance_pc (e : Executor) : Executor :=
  { e with program_counter := wadd e.program_counter 1 }

/-- Wrap an `Except`-style sub-step into an `execute` arm result: on success
advance the PC and answer `Ok`, on error keep the pre-step state `e` (those
sub-steps mutate nothing when they fail). -/
def stepBin (e : Executor) (r : Except ExecutionError Executor) :
    Executor × Except ExecutionError ExecutionSuccess :=
  match r with
  | .ok e1 => (e1.advance_pc, .ok .Ok)
  | .error er => (e, .error er)

/-- Wrap a state-threading sub-step into an `execute` arm result: on success
advance the PC and answer `Ok`, on error keep the (possibly mutated) state
the sub-step returned. -/
def stepPair (p : Executor × Except ExecutionError Unit) :
    Executor × Except ExecutionError ExecutionSuccess :=
  match p with
  | (e1, .ok _) => (e1.advance_pc, .ok .Ok)
  | (e1, .error er) => (e1, .error er)

/-- Resolution of a conditional test in `execute`: a passed test falls
through to the PC advance; a failed test runs `pass_condition` and
early-returns, propagating its error (with its PC mutations) if any. -/
def stepCond (e : Executor) (res : Bool) :
    Executor × Except ExecutionError ExecutionSuccess :=
  if res then (e.advance_pc, .ok .Ok)
  else
    match e.pass_condition with
    | (e1, .ok _) => (e1, .ok .Ok)
    | (e1, .error er) => (e1, .error er)

/-- Shape of the binary conditionals `exec_ife` … `exec_inx`: resolve both
operands, read both as `t`, and test. -/
def Executor.cond_bin (e : Executor) (t : OpType) (bin : BinOp)
    (f : OpType → Nat → Nat → Bool) :
    Executor × Except ExecutionError ExecutionSuccess :=
  match (do
      let (left, right) ← e.read_bin_operands bin
      let x ← e.get_val t.size left
      let y ← e.get_val t.size right
      pure (f t x y) : Except ExecutionError Bool) with
  | .error er => (e, .error er)
  | .ok res => stepCond e res

/-- Dispatch of one already-fetched operation, mirroring the big match of
`Executor::execute`.  Early-returning arms (`Go`, failed conditionals,
`Clf`, `Ret`) skip the bottom PC advance. -/
def Executor.exec_op (h : HostOps) (e : Executor) (op : Op) :
    Executor × Except ExecutionError ExecutionSuccess :=
  match op with
  | .Nop => (e.advance_pc, .ok .Ok)
  | .End x =>
    match e.get_val wordSize x with
    | .ok v => (e.advance_pc, .ok (.End v))
    | .error er => (e, .error er)
  | .Slp x =>
    match e.get_val wordSize x with
    | .ok v => (e.advance_pc, .ok (.Sleep v))
    | .error er => (e, .error er)
  | .Set bin t => stepBin e (e.update_bin t.size bin (fun _ y => y))
  | .Cnv x y t u => stepBin e (e.exec_cnv h x y t u)
  | .Add bin t => stepBin e (e.update_bin t.size bin (addOp h t))
  | .Sub bin t => stepBin e (e.update_bin t.size bin (subOp h t))
  | .Mul bin t => stepBin e (e.update_bin t.size bin (mulOp h t))
  | .Div bin t => stepPair (e.update_bin_division t bin (divOp h t))
  | .Mod bin t => stepPair (e.update_bin_division t bin (modOp h t))
  | .Shl x y t =>
    if t.is_float then (e, .error (.IncorrectOperation (.Shl x y t)))
    else stepBin e (e.exec_shift t x y shlOp)
  | .Shr x y t =>
    if t.is_float then (e, .error (.IncorrectOperation (.Shr x y t)))
    else stepBin e (e.exec_shift t x y shrOp)
  | .And bin t =>
    if t.is_float then (e, .error (.IncorrectOperation (.And bin t)))
    else stepBin e (e.update_bin t.size bin (andOp t))
  | .Or bin t =>
    if t.is_float then (e, .error (.IncorrectOperation (.Or bin t)))
    else stepBin e (e.update_bin t.size bin (orOp t))
  | .Xor bin t =>
    if t.is_float then (e, .error (.IncorrectOperation (.Xor bin t)))
    else stepBin e (e.update_bin t.size bin (xorOp t))
  | .Not un t =>
    if t.is_float then (e, .error (.IncorrectOperation (.Not un t)))
    else stepBin e (e.update_un t.size un (notOp t))
  | .Neg un t => stepBin e (e.update_un t.size un (negOp t))
  | .Inc un t => stepBin e (e.update_un t.size un (incOp h t))
  | .Dec un t => stepBin e (e.update_un t.size un (decOp h t))
  | .Go x =>
    match e.get_val wordSize x with
    | .ok v => ({ e with program_counter := v }, .ok .Ok)
    | .error er => (e, .error er)
  | .Ift un t =>
    match e.get_un t.size un with
    | .error er => (e, .error er)
    | .ok v => stepCond e (isTrueTest t v)
  | .Iff un t =>
    match e.get_un t.size un with
    | .error er => (e, .error er)
    | .ok v => stepCond e (isFalseTest t v)
  | .Ife bin t => e.cond_bin t bin eqTest
  | .Ifl bin t => e.cond_bin t bin ltTest
  | .Ifg bin t => e.cond_bin t bin gtTest
  | .Ine bin t => e.cond_bin t bin neTest
  | .Inl bin t => e.cond_bin t bin geTest
  | .Ing bin t => e.cond_bin t bin leTest
  | .Ifa bin t =>
    if t.is_float then (e, .error (.IncorrectOperation (.Ifa bin t)))
    else e.cond_bin t bin andNzTest
  | .Ifo bin t =>
    if t.is_float then (e, .error (.IncorrectOperation (.Ifo bin t)))
    else e.cond_bin t bin orNzTest
  | .Ifx bin t =>
    if t.is_float then (e, .error (.IncorrectOperation (.Ifx bin t)))
    else e.cond_bin t bin xorNzTest
  | .Ina bin t =>
    if t.is_float then (e, .error (.IncorrectOperation (.Ina bin t)))
    else e.cond_bin t bin andZTest
  | .Ino bin t =>
    if t.is_float then (e, .error (.IncorrectOperation (.Ino bin t)))
    else e.cond_bin t bin orZTest
  | .Inx bin t =>
    if t.is_float then (e, .error (.IncorrectOperation (.Inx bin t)))
    else e.cond_bin t bin xorZTest
  | .App x =>
    match e.get_val wordSize x with
    | .error er => (e, .error er)
    | .ok fid =>
      match e.app fid with
      | (e1, .ok _) => (e1.advance_pc, .ok .Ok)
      | (e1, .error er) => (e1, .error er)
  | .Par un t => stepPair (e.exec_par t un)
  | .Clf x =>
    match e.get_val wordSize x with
    | .error er => (e, .error er)
    | .ok rvp =>
      match e.clf rvp with
      | (e1, .ok _) => (e1, .ok .Ok)
      | (e1, .error er) => (e1, .error er)
  | .Ret un t =>
    match (if un.x = .Emp then .ok e else e.set_ret t.size un) with
    | .error er => (e, .error er)
    | .ok e1 =>
      match e1.ret with
      | (e2, .ok _) => (e2, .ok .Ok)
      | (e2, .error er) => (e2, .error er)
  | .In bin =>
    match e.files.read with
    | .error fe => (e, .error (.FilesError fe))
    | .ok (val, f1) =>
      let e1 := { e with files := f1 }
      match e1.read_bin_operands bin with
      | .error er => (e1, .error er)
      | .ok (left, right) =>
        match (if right ≠ .Emp then e1.set_val 1 right (if val.isSome then 1 else 0)
               else .ok e1) with
        | .error er => (e1, .error er)
        | .ok e2 =>
          match e2.set_val 1 left (val.getD 0) with
          | .error er => (e2, .error er)
          | .ok e3 => (e3.advance_pc, .ok .Ok)
  | .Out un =>
    match (do
        let o ← e.read_un_operand un
        e.get_val 1 o : Except ExecutionError Nat) with
    | .error er => (e, .error er)
    | .ok v =>
      match e.files.write v with
      | .error fe => (e, .error (.FilesError fe))
      | .ok f1 => (Executor.advance_pc { e with files := f1 }, .ok .Ok)
  | .Fls =>
    match e.files.flush with
    | .error fe => (e, .error (.FilesError fe))
    | .ok f1 => (Executor.advance_pc { e with files := f1 }, .ok .Ok)
  | .Sfd x =>
    match e.get_val wordSize x with
    | .error er => (e, .error er)
    | .ok hdl =>
      match e.files.set_current hdl with
      | .error fe => (e, .error (.FilesError fe))
      | .ok f1 => (Executor.advance_pc { e with files := f1 }, .ok .Ok)
  | .Gfd x =>
    match e.files.current_fd with
    | .error fe => (e, .error (.FilesError fe))
    | .ok hdl =>
      match e.set_val wordSize x hdl with
      | .error er => (e, .error er)
      | .ok e1 => (e1.advance_pc, .ok .Ok)
  | .Zer x y =>
    match (do
        let dest ← e.get_val wordSize x
        let size ← e.get_val wordSize y
        memRes (e.memory.set_zeros dest size) : Except ExecutionError Memory) with
    | .error er => (e, .error er)
    | .ok m => (Executor.advance_pc { e with memory := m }, .ok .Ok)
  | .Cmp x y z =>
    match (do
        let a ← e.get_val wordSize x
        let b ← e.get_val wordSize y
        let size ← e.get_val wordSize z
        memRes (e.memory.compare a b size) : Except ExecutionError Bool) with
    | .error er => (e, .error er)
    | .ok res => stepCond e res
  | .Cpy x y z =>
    match (do
        let dest ← e.get_val wordSize x
        let src ← e.get_val wordSize y
        let size ← e.get_val wordSize z
        memRes (e.memory.copy dest src size) : Except ExecutionError Memory) with
    | .error er => (e, .error er)
    | .ok m => (Executor.advance_pc { e with memory := m }, .ok .Ok)

/-- `Executor::execute`: fetch the current operation and dispatch it; a
fetch failure leaves the state untouched. -/
def Executor.execute (h : HostOps) (e : Executor) :
    Executor × Except ExecutionError ExecutionSuccess :=
  match e.current_op with
  | .error er => (e, .error er)
  | .ok op => e.exec_op h op

/-- The decoder error taxonomy (`DecodeError` in src/decoder/decoder.rs).
`ReadError` can only arise from host I/O and is never produced over the
modelled in-memory byte stream; `UndefinedOperation` carries opaque details
in the source, omitted here. -/
inductive DecodeError where
  | ReadError
  | UnexpectedEnd
  | UnknownOpCode
  | UndefinedOperation
  | IncorrectVariant
deriving DecidableEq

/-- Modelled from the spec: the 2-bit offset `Variant` tag of the `common`
module. -/
inductive Variant where
  | None
  | First
  | Second
  | Both
deriving DecidableEq

/-- Modelled from the spec: `Variant::new` on the 2-bit field
(00=None, 01=First, 10=Second, 11=Both). -/
def Variant.new : Nat → Except DecodeError Variant
  | 0 => .ok .None
  | 1 => .ok .First
  | 2 => .ok .Second
  | 3 => .ok .Both
  | _ => .error .UndefinedOperation

/-- Modelled from the spec: `OpType::new` on the 4-bit type nibble.  Values
0 to 7 (the fixed-width integer types in pair order) and 11 (`F32`) are
pinned by the decoder tests in src/decoder/decoder.rs; 8/9 (`Uw`/`Iw`)
follow the spec enumeration order, 13 (`F64`) extends the pattern of 11;
anything else is rejected. -/
def OpType.new : Nat → Except DecodeError OpType
  | 0 => .ok .U8
  | 1 => .ok .I8
  | 2 => .ok .U16
  | 3 => .ok .I16
  | 4 => .ok .U32
  | 5 => .ok .I32
  | 6 => .ok .U64
  | 7 => .ok .I64
  | 8 => .ok .Uw
  | 9 => .ok .Iw
  | 11 => .ok .F32
  | 13 => .ok .F64
  | _ => .error .UndefinedOperation

/-- Modelled from the spec: `Operand::new` on a decoded value and the 3-bit
kind field, in the section-3 order Loc, Ind, Ret, Val, Ref, Glb, Emp;
kind 7 is undefined. -/
def Operand.new (value kind : Nat) : Except DecodeError Operand :=
  match kind with
  | 0 => .ok (.Loc value)
  | 1 => .ok (.Ind value)
  | 2 => .ok (.Ret value)
  | 3 => .ok (.Val value)
  | 4 => .ok (.Ref value)
  | 5 => .ok (.Glb value)
  | 6 => .ok .Emp
  | _ => .error .UndefinedOperation

/-- Modelled from the spec: the fixed one-byte opcode table of
`common::op_codes`, numbered consecutively in the order listed in spec
section 6 (NOP, END, SLP, SET, CNV, ADD, SUB, MUL, DIV, MOD, SHL, SHR, AND,
OR, XOR, NOT, NEG, INC, DEC, GO, IFT, IFF, IFE, IFL, IFG, INE, INL, ING,
IFA, IFO, IFX, INA, INO, INX, APP, PAR, CLF, RET, IN, OUT, FLS, SFD, GFD,
ZER, CMP, CPY). -/
def opcodeNOP : Nat := 0

/-- Opcode byte for `End`. -/
def opcodeEND : Nat := 1

/-- Opcode byte for `Slp`. -/
def opcodeSLP : Nat := 2

/-- Opcode byte for `Set`. -/
def opcodeSET : Nat := 3

/-- Opcode byte for `Cnv`. -/
def opcodeCNV : Nat := 4

/-- Opcode byte for `Add`. -/
def opcodeADD : Nat := 5

/-- Opcode byte for `Sub`. -/
def opcodeSUB : Nat := 6

/-- Opcode byte for `Mul`. -/
def opcodeMUL : Nat := 7

/-- Opcode byte for `Div`. -/
def opcodeDIV : Nat := 8

/-- Opcode byte for `Mod`. -/
def opcodeMOD : Nat := 9

/-- Opcode byte for `Shl`. -/
def opcodeSHL : Nat := 10

/-- Opcode byte for `Shr`. -/
def opcodeSHR : Nat := 11

/-- Opcode byte for `And`. -/
def opcodeAND : Nat := 12

/-- Opcode byte for `Or`. -/
def opcodeOR : Nat := 13

/-- Opcode byte for `Xor`. -/
def opcodeXOR : Nat := 14

/-- Opcode byte for `Not`. -/
def opcodeNOT : Nat := 15

/-- Opcode byte for `Neg`. -/
def opcodeNEG : Nat := 16

/-- Opcode byte for `Inc`. -/
def opcodeINC : Nat := 17

/-- Opcode byte for `Dec`. -/
def opcodeDEC : Nat := 18

/-- Opcode byte for `Go`. -/
def opcodeGO : Nat := 19

/-- Opcode byte for `Ift`. -/
def opcodeIFT : Nat := 20

/-- Opcode byte for `Iff`. -/
def opcodeIFF : Nat := 21

/-- Opcode byte for `Ife`. -/
def opcodeIFE : Nat := 22

/-- Opcode byte for `Ifl`. -/
def opcodeIFL : Nat := 23

/-- Opcode byte for `Ifg`. -/
def opcodeIFG : Nat := 24

/-- Opcode byte for `Ine`. -/
def opcodeINE : Nat := 25

/-- Opcode byte for `Inl`. -/
def opcodeINL : Nat := 26

/-- Opcode byte for `Ing`. -/
def opcodeING : Nat := 27

/-- Opcode byte for `Ifa`. -/
def opcodeIFA : Nat := 28

/-- Opcode byte for `Ifo`. -/
def opcodeIFO : Nat := 29

/-- Opcode byte for `Ifx`. -/
def opcodeIFX : Nat := 30

/-- Opcode byte for `Ina`. -/
def opcodeINA : Nat := 31

/-- Opcode byte for `Ino`. -/
def opcodeINO : Nat := 32

/-- Opcode byte for `Inx`. -/
def opcodeINX : Nat := 33

/-- Opcode byte for `App`. -/
def opcodeAPP : Nat := 34

/-- Opcode byte for `Par`. -/
def opcodePAR : Nat := 35

/-- Opcode byte for `Clf`. -/
def opcodeCLF : Nat := 36

/-- Opcode byte for `Ret`. -/
def opcodeRET : Nat := 37

/-- Opcode byte for `In`. -/
def opcodeIN : Nat := 38

/-- Opcode byte for `Out`. -/
def opcodeOUT : Nat := 39

/-- Opcode byte for `Fls`. -/
def opcodeFLS : Nat := 40

/-- Opcode byte for `Sfd`. -/
def opcodeSFD : Nat := 41

/-- Opcode byte for `Gfd`. -/
def opcodeGFD : Nat := 42

/-- Opcode byte for `Zer`. -/
def opcodeZER : Nat := 43

/-- Opcode byte for `Cmp`. -/
def opcodeCMP : Nat := 44

/-- Opcode byte for `Cpy`. -/
def opcodeCPY : Nat := 45

/-- `read_u8` over the modelled byte stream: one byte or `UnexpectedEnd`. -/
def readU8 : List Nat → Except DecodeError (Nat × List Nat)
  | [] => .error .UnexpectedEnd
  | b :: rest => .ok (b % 256, rest)

/-- Read exactly `n` bytes or fail with `UnexpectedEnd` (the `expected`
combinator over `Read::read`). -/
def readBytesN (n : Nat) (l : List Nat) : Except DecodeError (List Nat × List Nat) :=
  if n ≤ l.length then .ok (l.take n, l.drop n) else .error .UnexpectedEnd

/-- `Decode for Operand`: a clear high bit means a short `Loc` of the low
7 bits; otherwise bits 4 to 6 give the kind and bits 0 to 1 give the byte
count minus one, followed by that many little-endian value bytes. -/
def decodeOperand (l : List Nat) : Except DecodeError (Operand × List Nat) := do
  let (meta, l1) ← readU8 l
  if meta / 128 = 0 then .ok (.Loc (meta % 128), l1)
  else do
    let n_bytes := meta % 4 + 1
    let (bs, l2) ← readBytesN n_bytes l1
    let value := fromLeBytes bs
    let kind := meta % 128 / 16
    let o ← Operand.new value kind
    .ok (o, l2)

/-- `Decode for (OpType, Variant)`: one meta byte with the type in bits
0 to 3 and the variant in bits 6 to 7. -/
def decodeOpTypeVariant (l : List Nat) : Except DecodeError ((OpType × Variant) × List Nat) := do
  let (meta, l1) ← readU8 l
  let t ← OpType.new (meta % 16)
  let v ← Variant.new (meta / 64)
  .ok ((t, v), l1)

/-- `Decode for OpType`: one meta byte, type in bits 0 to 3. -/
def decodeOpType (l : List Nat) : Except DecodeError (OpType × List Nat) := do
  let (meta, l1) ← readU8 l
  let t ← OpType.new (meta % 16)
  .ok (t, l1)

/-- `Decode for (OpType, OpType)` (used by `Cnv`): primary type in bits
0 to 3, secondary in bits 4 to 7. -/
def decodeTwoOpTypes (l : List Nat) : Except DecodeError ((OpType × OpType) × List Nat) := do
  let (meta, l1) ← readU8 l
  let t ← OpType.new (meta % 16)
  let u ← OpType.new (meta / 16 % 16)
  .ok ((t, u), l1)

/-- `Decode of Variant for UnOp`: the primary operand is decoded first, then
the variant is examined; `Second`/`Both` yield `IncorrectVariant`. -/
def decodeUnOpWith (var : Variant) (l : List Nat) : Except DecodeError (UnOp × List Nat) := do
  let (x, l1) ← decodeOperand l
  match var with
  | .None => .ok (UnOp.new x, l1)
  | .First => do
    let (off, l2) ← decodeOperand l1
    .ok ((UnOp.new x).with_first off, l2)
  | _ => .error .IncorrectVariant

/-- `Decode of Variant for BinOp`: both operands, then the optional offset
according to the variant. -/
def decodeBinOpWith (var : Variant) (l : List Nat) : Except DecodeError (BinOp × List Nat) := do
  let (x, l1) ← decodeOperand l
  let (y, l2) ← decodeOperand l1
  match var with
  | .None => .ok (BinOp.new x y, l2)
  | .First => do
    let (off, l3) ← decodeOperand l2
    .ok ((BinOp.new x y).with_first off, l3)
  | .Second => do
    let (off, l3) ← decodeOperand l2
    .ok ((BinOp.new x y).with_second off, l3)
  | .Both => do
    let (off, l3) ← decodeOperand l2
    .ok ((BinOp.new x y).with_both off, l3)

/-- `Decode for (BinOp, OpType)`: meta byte then variant-directed `BinOp`. -/
def decodeBinTyped (l : List Nat) : Except DecodeError ((BinOp × OpType) × List Nat) := do
  let ((t, var), l1) ← decodeOpTypeVariant l
  let (bin, l2) ← decodeBinOpWith var l1
  .ok ((bin, t), l2)

/-- Meta byte then variant-directed `UnOp` (the shape of the `NOT`, `NEG`,
`INC`, `DEC`, `IFT`, `IFF`, `PAR`, `RET` and `OUT` arms). -/
def decodeUnTyped (l : List Nat) : Except DecodeError ((UnOp × OpType) × List Nat) := do
  let ((t, var), l1) ← decodeOpTypeVariant l
  let (un, l2) ← decodeUnOpWith var l1
  .ok ((un, t), l2)

/-- `decode_op` (src/decoder/decoder.rs): one opcode byte, then the
per-opcode operand stream; unknown opcode bytes give `UnknownOpCode`. -/
def decode_op (l : List Nat) : Except DecodeError (Op × List Nat) := do
  let (code, l1) ← readU8 l
  if code = opcodeNOP then .ok (.Nop, l1)
  else if code = opcodeEND then do
    let (x, l2) ← decodeOperand l1
    .ok (.End x, l2)
  else if code = opcodeSLP then do
    let (x, l2) ← decodeOperand l1
    .ok (.Slp x, l2)
  else if code = opcodeSET then do
    let ((bin, t), l2) ← decodeBinTyped l1
    .ok (.Set bin t, l2)
  else if code = opcodeCNV then do
    let ((t, u), l2) ← decodeTwoOpTypes l1
    let (x, l3) ← decodeOperand l2
    let (y, l4) ← decodeOperand l3
    .ok (.Cnv x y t u, l4)
  else if code = opcodeADD then do
    let ((bin, t), l2) ← decodeBinTyped l1
    .ok (.Add bin t, l2)
  else if code = opcodeSUB then do
    let ((bin, t), l2) ← decodeBinTyped l1
    .ok (.Sub bin t, l2)
  else if code = opcodeMUL then do
    let ((bin, t), l2) ← decodeBinTyped l1
    .ok (.Mul bin t, l2)
  else if code = opcodeDIV then do
    let ((bin, t), l2) ← decodeBinTyped l1
    .ok (.Div bin t, l2)
  else if code = opcodeMOD then do
    let ((bin, t), l2) ← decodeBinTyped l1
    .ok (.Mod bin t, l2)
  else if code = opcodeSHL then do
    let (t, l2) ← decodeOpType l1
    let (x, l3) ← decodeOperand l2
    let (y, l4) ← decodeOperand l3
    .ok (.Shl x y t, l4)
  else if code = opcodeSHR then do
    let (t, l2) ← decodeOpType l1
    let (x, l3) ← decodeOperand l2
    let (y, l4) ← decodeOperand l3
    .ok (.Shr x y t, l4)
  else if code = opcodeAND then do
    let ((bin, t), l2) ← decodeBinTyped l1
    .ok (.And bin t, l2)
  else if code = opcodeOR then do
    let ((bin, t), l2) ← decodeBinTyped l1
    .ok (.Or bin t, l2)
  else if code = opcodeXOR then do
    let ((bin, t), l2) ← decodeBinTyped l1
    .ok (.Xor bin t, l2)
  else if code = opcodeNOT then do
    let ((un, t), l2) ← decodeUnTyped l1
    .ok (.Not un t, l2)
  else if code = opcodeNEG then do
    let ((un, t), l2) ← decodeUnTyped l1
    .ok (.Neg un t, l2)
  else if code = opcodeINC then do
    let ((un, t), l2) ← decodeUnTyped l1
    .ok (.Inc un t, l2)
  else if code = opcodeDEC then do
    let ((un, t), l2) ← decodeUnTyped l1
    .ok (.Dec un t, l2)
  else if code = opcodeGO then do
    let (x, l2) ← decodeOperand l1
    .ok (.Go x, l2)
  else if code = opcodeIFT then do
    let ((un, t), l2) ← decodeUnTyped l1
    .ok (.Ift un t, l2)
  else if code = opcodeIFF then do
    let ((un, t), l2) ← decodeUnTyped l1
    .ok (.Iff un t, l2)
  else if code = opcodeIFE then do
    let ((bin, t), l2) ← decodeBinTyped l1
    .ok (.Ife bin t, l2)
  else if code = opcodeIFL then do
    let ((bin, t), l2) ← decodeBinTyped l1
    .ok (.Ifl bin t, l2)
  else if code = opcodeIFG then do
    let ((bin, t), l2) ← decodeBinTyped l1
    .ok (.Ifg bin t, l2)
  else if code = opcodeINE then do
    let ((bin, t), l2) ← decodeBinTyped l1
    .ok (.Ine bin t, l2)
  else if code = opcodeINL then do
    let ((bin, t), l2) ← decodeBinTyped l1
    .ok (.Inl bin t, l2)
  else if code = opcodeING then do
    let ((bin, t), l2) ← decodeBinTyped l1
    .ok (.Ing bin t, l2)
  else if code = opcodeIFA then do
    let ((bin, t), l2) ← decodeBinTyped l1
    .ok (.Ifa bin t, l2)
  else if code = opcodeIFO then do
    let ((bin, t), l2) ← decodeBinTyped l1
    .ok (.Ifo bin t, l2)
  else if code = opcodeIFX then do
    let ((bin, t), l2) ← decodeBinTyped l1
    .ok (.Ifx bin t, l2)
  else if code = opcodeINA then do
    let ((bin, t), l2) ← decodeBinTyped l1
    .ok (.Ina bin t, l2)
  else if code = opcodeINO then do
    let ((bin, t), l2) ← decodeBinTyped l1
    .ok (.Ino bin t, l2)
  else if code = opcodeINX then do
    let ((bin, t), l2) ← decodeBinTyped l1
    .ok (.Inx bin t, l2)
  else if code = opcodeAPP then do
    let (x, l2) ← decodeOperand l1
    .ok (.App x, l2)
  else if code = opcodePAR then do
    let ((un, t), l2) ← decodeUnTyped l1
    .ok (.Par un t, l2)
  else if code = opcodeCLF then do
    let (x, l2) ← decodeOperand l1
    .ok (.Clf x, l2)
  else if code = opcodeRET then do
    let ((un, t), l2) ← decodeUnTyped l1
    .ok (.Ret un t, l2)
  else if code = opcodeIN then do
    let ((_, var), l2) ← decodeOpTypeVariant l1
    let (bin, l3) ← decodeBinOpWith var l2
    .ok (.In bin, l3)
  else if code = opcodeOUT then do
    let ((_, var), l2) ← decodeOpTypeVariant l1
    let (un, l3) ← decodeUnOpWith var l2
    .ok (.Out un, l3)
  else if code = opcodeFLS then .ok (.Fls, l1)
  else if code = opcodeSFD then do
    let (x, l2) ← decodeOperand l1
    .ok (.Sfd x, l2)
  else if code = opcodeGFD then do
    let (x, l2) ← decodeOperand l1
    .ok (.Gfd x, l2)
  else if code = opcodeZER then do
    let (x, l2) ← decodeOperand l1
    let (y, l3) ← decodeOperand l2
    .ok (.Zer x y, l3)
  else if code = opcodeCMP then do
    let (x, l2) ← decodeOperand l1
    let (y, l3) ← decodeOperand l2
    let (z, l4) ← decodeOperand l3
    .ok (.Cmp x y z, l4)
  else if code = opcodeCPY then do
    let (x, l2) ← decodeOperand l1
    let (y, l3) ← decodeOperand l2
    let (z, l4) ← decodeOperand l3
    .ok (.Cpy x y z, l4)
  else .error .UnknownOpCode

/-- The opcodes whose operand stream is a single variant-directed `UnOp`
(the `UnOp`-carrying opcodes of the decoder). -/
def unOpCode (code : Nat) : Bool :=
  code = opcodeNOT || code = opcodeNEG || code = opcodeINC || code = opcodeDEC ||
    code = opcodeIFT || code = opcodeIFF || code = opcodePAR || code = opcodeRET ||
    code = opcodeOUT

/-- States reachable from a freshly constructed executor through the public
surface: `from_limits` (and hence `new`), `call`, and `execute`. -/
inductive Reach (h : HostOps) (functions : List Func) : Executor → Prop where
  | init (stack_limit heap_limit : Nat) :
      Reach h functions (Executor.from_limits functions stack_limit heap_limit)
  | call_step (e : Executor) (fid rvp : Nat) :
      Reach h functions e → Reach h functions (e.call fid rvp).1
  | exec_step (e : Executor) :
      Reach h functions e → Reach h functions (e.execute h).1

/-- A fixed trivial `HostOps` instance, used to build concrete witness
states (all theorems are proved for every instance). -/
def hostOps0 : HostOps :=
  ⟨fun _ _ _ => 0, fun _ _ _ => 0, fun _ _ _ => 0, fun _ _ _ => 0, fun _ _ _ => 0,
   fun _ _ => 0, fun _ _ => 0, fun _ _ _ => 0⟩

/-- The concrete division-by-zero scenario of claim C1: one frame of four
bytes holding the `i32` value 8, about to execute `Div(Loc(0), Val(0), I32)`
(the tail of the `executor_div` test). -/
def exDivFunc : Func := ⟨4, [.Div (BinOp.new (.Loc 0) (.Val 0)) .I32]⟩

/-- Executor state for the C1 counterexample. -/
def exDiv : Executor :=
  ⟨[exDivFunc], ⟨16, [8, 0, 0, 0], []⟩, 0, [⟨exDivFunc, 0, 0, 0⟩], false, 0, Files.new⟩

/-- Functions for the C2 parameter-placement scenario (the prefix of the
`executor_call_fn` test): a caller with frame 4 that applies function 1 and
passes the immediate 2 as an `i32` parameter, and a callee with frame 8. -/
def parFns : List Func :=
  [⟨4, [.App (.Val 1), .Par (UnOp.new (.Val 2)) .I32]⟩, ⟨8, [.Nop]⟩]

/-- State after bootstrapping `call(0, 0)` on the C2 scenario. -/
def parE1 : Executor := ((Executor.from_limits parFns 32 0).call 0 0).1

/-- State after additionally executing the `App`. -/
def parE2 : Executor := (parE1.execute hostOps0).1

/-- State after additionally executing the `Par`: the parameter has been
marshalled. -/
def parE3 : Executor := (parE2.execute hostOps0).1

/-- The single-conditional program of the C3 counterexample: a false `Ift`
at the last instruction, so that the skip scan runs off the program. -/
def iftOnlyFns : List Func := [⟨0, [.Ift (UnOp.new (.Val 0)) .U8]⟩]

/-- State about to execute the false `Ift`. -/
def iftOnlyE : Executor := ((Executor.from_limits iftOnlyFns 8 0).call 0 0).1

/-- The single-`End` program of the C4 counterexample. -/
def endOnlyE : Executor := ((Executor.from_limits [⟨0, [.End (.Val 5)]⟩] 8 0).call 0 0).1

/-- The `App`-then-`Ret` program of the C6 counterexample: executing `Ret`
while the call is still prepared pops one record and leaves
`prepared_call` set with a single record on the stack. -/
def appRetFns : List Func := [⟨0, [.App (.Val 0), .Ret (UnOp.new .Emp) .U8]⟩]

/-- State after `call(0,0)`, `execute` (the `App`) and `execute` (the `Ret`)
on the `App`-then-`Ret` program. -/
def appRetE : Executor :=
  (((((Executor.from_limits appRetFns 8 0).call 0 0).1.execute hostOps0).1.execute hostOps0)).1

/-- Bit pattern of an `f32` NaN (quiet NaN, `0x7FC00000`). -/
def nanBits32 : Nat := 0x7FC00000

/-- A state whose program is a conditional chain: a false `Ift` guard at
PC 0, another conditional after it, then a guarded `Nop` and a trailing
`Nop` (used to exercise the conditional skip). -/
def skipE : Executor :=
  ⟨[], Memory.from_limits 0 0, 0,
    [⟨⟨0, [.Ift (UnOp.new (.Val 0)) .U8, .Ife (BinOp.new (.Val 0) (.Val 0)) .U8,
            .Nop, .Nop]⟩, 0, 0, 0⟩],
    false, 0, Files.new⟩

/-- A state about to execute `Ret(Loc(0), U8)` in a callee (base 4, frame
4, return-value pointer 0, resume PC 1) on top of a caller frame, with the
callee's `Loc(0)` holding the byte 7. -/
def retE : Executor :=
  ⟨[], ⟨16, [0, 0, 0, 0, 7, 0, 0, 0], []⟩, 0,
    [⟨⟨4, [.Nop]⟩, 0, 0, 0⟩, ⟨⟨4, [.Ret (UnOp.new (.Loc 0)) .U8]⟩, 4, 0, 1⟩],
    false, 0, Files.new⟩

/-- Whether an operation is a `Ret`. -/
def Op.is_ret : Op → Bool
  | .Ret _ _ => true
  | _ => false

/-- Whether an operation is an `App`. -/
def Op.is_app : Op → Bool
  | .App _ => true
  | _ => false

/-- Whether an operation is a `Clf`. -/
def Op.is_clf : Op → Bool
  | .Clf _ => true
  | _ => false

theorem length_le_one_get?_wsub {α : Type} (l : List α) (hl : l.length ≤ 1) :
    l.get? (wsub l.length 2) = none := by
  apply List.get?_eq_none.mpr
  rcases Nat.le_one_iff_eq_zero_or_eq_one.mp hl with h | h <;> rw [h] <;> decide

theorem current_call_short (e : Executor) (hp : e.prepared_call = true)
    (hl : e.call_stack.length ≤ 1) : e.current_call = .error .EndOfProgram := by
  unfold Executor.current_call
  rw [hp]
  have hn := length_le_one_get?_wsub e.call_stack hl
  simp only [if_pos]
  rw [hn]

/-- Reduction of an `Except` bind on an error (used to push `do` chains
through hypotheses). -/
theorem bind_error_eq {ε α β : Type} (er : ε) (f : α → Except ε β) :
    (Except.error er >>= f) = Except.error er := rfl

/-- Reduction of an `Except` bind on a success. -/
theorem bind_ok_eq {ε α β : Type} (a : α) (f : α → Except ε β) :
    (Except.ok a >>= f : Except ε β) = f a := rfl

/-- C10: whenever `prepared_call` is set but fewer than two records are on
the call stack, `current_call` — and with it `current_op`, `execute`, and
every operand resolution that needs the current frame — fails with
`EndOfProgram`: the wrapping subtraction produces a huge index and the
checked `get` returns `none`. -/
theorem c10_current_call_short_end_of_program :
    ∀ (h : HostOps) (e : Executor), e.prepared_call = true → e.call_stack.length < 2 →
      e.current_call = .error .EndOfProgram ∧
      e.current_op = .error .EndOfProgram ∧
      e.execute h = (e, .error .EndOfProgram) ∧
      (∀ sz u, e.get_val sz (.Loc u) = .error .EndOfProgram) ∧
      (∀ sz u, u ≠ 0 → e.get_val sz (.Ind u) = .error .EndOfProgram) ∧
      (∀ sz u, e.get_val sz (.Ret u) = .error .EndOfProgram) ∧
      (∀ sz u, e.get_val sz (.Ref u) = .error .EndOfProgram) ∧
      (∀ sz, e.get_val sz .Emp = .error .EndOfProgram) ∧
      (∀ sz u v, e.set_val sz (.Loc u) v = .error .EndOfProgram) := by
  intro h e hp hl
  have hcc := current_call_short e hp (by omega)
  have hco : e.current_op = .error .EndOfProgram := by
    unfold Executor.current_op
    rw [hcc]
    rfl
  refine ⟨hcc, hco, ?_, ?_, ?_, ?_, ?_, ?_, ?_⟩
  · simp [Executor.execute, hco]
  · intro sz u
    simp [Executor.get_val, hcc, bind_error_eq]
  · intro sz u hu
    simp [Executor.get_val, hcc, hu, bind_error_eq]
  · intro sz u
    simp [Executor.get_val, hcc, bind_error_eq]
  · intro sz u
    simp [Executor.get_val, hcc, bind_error_eq]
  · simp [Executor.get_val, hco]
  · intro sz u v
    simp [Executor.set_val, hcc, bind_error_eq]

/-- C10 witness: a concrete prepared state with a single stacked record. -/
theorem c10_witness :
    (⟨[], Memory.from_limits 0 0, 0, [⟨⟨0, []⟩, 0, 0, 0⟩], true, 0, Files.new⟩ :
        Executor).current_call = .error .EndOfProgram ∧
      (Executor.execute hostOps0
        ⟨[], Memory.from_limits 0 0, 0, [⟨⟨0, []⟩, 0, 0, 0⟩], true, 0, Files.new⟩) =
        (⟨[], Memory.from_limits 0 0, 0, [⟨⟨0, []⟩, 0, 0, 0⟩], true, 0, Files.new⟩,
          .error .EndOfProgram) ∧
      (⟨[], Memory.from_limits 0 0, 0, [⟨⟨0, []⟩, 0, 0, 0⟩], true, 0, Files.new⟩ :
        Executor).get_val 4 (.Loc 3) = .error .EndOfProgram := by
  have h := c10_current_call_short_end_of_program hostOps0
    ⟨[], Memory.from_limits 0 0, 0, [⟨⟨0, []⟩, 0, 0, 0⟩], true, 0, Files.new⟩
    rfl (by decide)
  exact ⟨h.1, h.2.2.1, h.2.2.2.1 4 3⟩

theorem decide_le_eq_not_decide_lt {α : Type} [LinearOrder α] (a b : α) :
    decide (a ≤ b) = !decide (b < a) := by
  rw [← decide_not]
  exact decide_eq_decide.mpr not_lt.symm

/-- C8 counterexample: at type `F32` with a NaN first operand, the `Inl`
test (`>=`) is not the negation of the `Ifl` test (`<`): both are false. -/
theorem c8_counterexample :
    ¬ (geTest .F32 nanBits32 0 = !ltTest .F32 nanBits32 0) := by
  decide

/-- C8 (amended): for every pair of operands, `Ine` is the negation of
`Ife` and `Ina`/`Ino`/`Inx` are the negations of `Ifa`/`Ifo`/`Ifx` at every
type, and `Inl`/`Ing` are the negations of `Ifl`/`Ifg` at every integer
type; at `F32`/`F64` the ordering pairs fail to be complementary when an
operand is NaN (both tests are then false). -/
theorem c8_inversion_amended :
    ∀ (t : OpType) (x y : Nat),
      neTest t x y = !eqTest t x y ∧
      andZTest t x y = !andNzTest t x y ∧
      orZTest t x y = !orNzTest t x y ∧
      xorZTest t x y = !xorNzTest t x y ∧
      (t.is_float = false →
        geTest t x y = !ltTest t x y ∧ leTest t x y = !gtTest t x y) := by
  intro t x y
  refine ⟨rfl, ?_, ?_, ?_, ?_⟩
  · simp [andZTest, andNzTest, decide_not]
  · simp [orZTest, orNzTest, decide_not]
  · simp [xorZTest, xorNzTest, decide_not]
  · intro hf
    constructor
    · unfold geTest ltTest
      rw [hf]
      by_cases hs : t.signed = true
      · rw [hs]
        simp only [if_true, if_false, Bool.false_eq_true]
        exact decide_le_eq_not_decide_lt _ _
      · rw [Bool.not_eq_true] at hs
        rw [hs]
        simp only [Bool.false_eq_true, if_false]
        exact decide_le_eq_not_decide_lt _ _
    · unfold leTest gtTest
      rw [hf]
      by_cases hs : t.signed = true
      · rw [hs]
        simp only [if_true, if_false, Bool.false_eq_true]
        exact decide_le_eq_not_decide_lt _ _
      · rw [Bool.not_eq_true] at hs
        rw [hs]
        simp only [Bool.false_eq_true, if_false]
        exact decide_le_eq_not_decide_lt _ _

/-- C8 witness: at type `U32` the negation law holds, e.g. at 5 and 7. -/
theorem c8_witness :
    geTest .U32 5 7 = !ltTest .U32 5 7 ∧ neTest .U32 5 7 = !eqTest .U32 5 7 :=
  ⟨((c8_inversion_amended .U32 5 7).2.2.2.2 rfl).1, (c8_inversion_amended .U32 5 7).1⟩

theorem decodeUnTyped_second_both (meta : Nat) (l : List Nat) (t : OpType) (x : Operand)
    (rest2 : List Nat) (hm : meta < 256) (ht : OpType.new (meta % 16) = .ok t)
    (hv : meta / 64 = 2 ∨ meta / 64 = 3) (hx : decodeOperand l = .ok (x, rest2)) :
    decodeUnTyped (meta :: l) = .error .IncorrectVariant := by
  unfold decodeUnTyped decodeOpTypeVariant
  simp only [readU8, bind_ok_eq]
  rw [Nat.mod_eq_of_lt hm]
  simp only [ht, bind_ok_eq]
  rcases hv with hv | hv <;> rw [hv] <;>
    simp [Variant.new, bind_ok_eq, bind_error_eq, decodeUnOpWith, hx]

/-- C9 counterexample: the stream `[NOT, 0b1000_0000]` has a `UnOp`-carrying
opcode whose meta byte encodes the `Second` variant (bits 6-7 are `10`),
yet the decoder returns `UnexpectedEnd` — the primary operand is decoded
before the variant is examined, and the stream is exhausted. -/
theorem c9_counterexample :
    (128 : Nat) / 64 = 2 ∧
      decode_op [opcodeNOT, 128] = .error .UnexpectedEnd ∧
      decode_op [opcodeNOT, 128] ≠ .error .IncorrectVariant := by
  refine ⟨rfl, rfl, ?_⟩
  intro hcontra
  rw [show decode_op [opcodeNOT, 128] = .error .UnexpectedEnd from rfl] at hcontra
  exact absurd (Except.error.inj hcontra) (by decide)

/-- C9 (amended): for every byte stream in which a `UnOp`-carrying opcode
(`NOT`, `NEG`, `INC`, `DEC`, `IFT`, `IFF`, `PAR`, `RET`, `OUT`) has a meta
byte with a valid type nibble and variant bits `Second` or `Both`, and
whose primary operand decodes successfully, the decoder returns
`IncorrectVariant`. -/
theorem c9_unop_incorrect_variant :
    ∀ (code meta : Nat) (rest : List Nat) (t : OpType) (x : Operand) (rest2 : List Nat),
      unOpCode code = true →
      meta < 256 →
      OpType.new (meta % 16) = .ok t →
      meta / 64 = 2 ∨ meta / 64 = 3 →
      decodeOperand rest = .ok (x, rest2) →
      decode_op (code :: meta :: rest) = .error .IncorrectVariant := by
  intro code meta rest t x rest2 hc hm ht hv hx
  have hun := decodeUnTyped_second_both meta rest t x rest2 hm ht hv hx
  have hout : decodeUnOpWith Variant.Second rest = .error .IncorrectVariant ∧
      decodeUnOpWith Variant.Both rest = .error .IncorrectVariant := by
    constructor <;> simp [decodeUnOpWith, hx, bind_ok_eq]
  unfold unOpCode at hc
  simp only [Bool.or_eq_true, decide_eq_true_eq] at hc
  rcases hc with ((((((((hcode | hcode) | hcode) | hcode) | hcode) | hcode) | hcode) | hcode) | hcode) <;>
    subst hcode <;>
    simp [decode_op, readU8, bind_ok_eq, bind_error_eq, hun,
      opcodeNOP, opcodeEND, opcodeSLP, opcodeSET, opcodeCNV, opcodeADD, opcodeSUB,
      opcodeMUL, opcodeDIV, opcodeMOD, opcodeSHL, opcodeSHR, opcodeAND, opcodeOR,
      opcodeXOR, opcodeNOT, opcodeNEG, opcodeINC, opcodeDEC, opcodeGO, opcodeIFT,
      opcodeIFF, opcodeIFE, opcodeIFL, opcodeIFG, opcodeINE, opcodeINL, opcodeING,
      opcodeIFA, opcodeIFO, opcodeIFX, opcodeINA, opcodeINO, opcodeINX, opcodeAPP,
      opcodePAR, opcodeCLF, opcodeRET, opcodeIN, opcodeOUT, opcodeFLS, opcodeSFD,
      opcodeGFD, opcodeZER, opcodeCMP, opcodeCPY]
  all_goals {
    unfold decodeOpTypeVariant
    simp only [readU8, bind_ok_eq]
    rw [Nat.mod_eq_of_lt hm]
    simp only [ht, bind_ok_eq]
    rcases hv with hv | hv <;> rw [hv] <;>
      simp [Variant.new, bind_ok_eq, bind_error_eq, hout.1, hout.2]
  }

/-- C9 witness: `NOT` with meta `0b1000_0000` (type nibble `U8`, variant
`Second`) and a short `Loc(0)` operand byte decodes to `IncorrectVariant`. -/
theorem c9_witness : decode_op [opcodeNOT, 128, 0] = .error .IncorrectVariant :=
  c9_unop_incorrect_variant opcodeNOT 128 [0] .U8 (.Loc 0) []
    rfl (by decide) rfl (Or.inl rfl) rfl

theorem bind_eq_ok {ε α β : Type} {x : Except ε α} {f : α → Except ε β} {b : β}
    (h : (x >>= f) = .ok b) : ∃ a, x = .ok a ∧ f a = .ok b := by
  cases x with
  | error er => exact Except.noConfusion h
  | ok a => exact ⟨a, rfl, h⟩

theorem set_val_memory_only (e : Executor) (sz : Nat) (o : Operand) (v : Nat) (e1 : Executor)
    (h : e.set_val sz o v = .ok e1) : ∃ m, e1 = { e with memory := m } := by
  cases o with
  | Loc u =>
    simp only [Executor.set_val] at h
    obtain ⟨c, _, h⟩ := bind_eq_ok h
    obtain ⟨m, _, h⟩ := bind_eq_ok h
    exact ⟨m, (Except.ok.inj h).symm⟩
  | Ind u =>
    simp only [Executor.set_val] at h
    by_cases hu : u = 0
    · rw [if_pos hu] at h
      exact Except.noConfusion h
    · rw [if_neg hu] at h
      obtain ⟨c, _, h⟩ := bind_eq_ok h
      obtain ⟨a, _, h⟩ := bind_eq_ok h
      obtain ⟨m, _, h⟩ := bind_eq_ok h
      exact ⟨m, (Except.ok.inj h).symm⟩
  | Ret u =>
    simp only [Executor.set_val] at h
    obtain ⟨c, _, h⟩ := bind_eq_ok h
    obtain ⟨m, _, h⟩ := bind_eq_ok h
    exact ⟨m, (Except.ok.inj h).symm⟩
  | Val u =>
    simp only [Executor.set_val] at h
    cases hco : e.current_op <;> rw [hco] at h <;> exact Except.noConfusion h
  | Ref u =>
    simp only [Executor.set_val] at h
    cases hco : e.current_op <;> rw [hco] at h <;> exact Except.noConfusion h
  | Glb u =>
    simp only [Executor.set_val] at h
    obtain ⟨m, _, h⟩ := bind_eq_ok h
    exact ⟨m, (Except.ok.inj h).symm⟩
  | Emp =>
    simp only [Executor.set_val] at h
    cases hco : e.current_op <;> rw [hco] at h <;> exact Except.noConfusion h

theorem update_bin_memory_only (e : Executor) (sz : Nat) (bin : BinOp) (f : Nat → Nat → Nat)
    (e1 : Executor) (h : e.update_bin sz bin f = .ok e1) :
    ∃ m, e1 = { e with memory := m } := by
  unfold Executor.update_bin at h
  obtain ⟨lr, _, h⟩ := bind_eq_ok h
  obtain ⟨x, _, h⟩ := bind_eq_ok h
  obtain ⟨y, _, h⟩ := bind_eq_ok h
  exact set_val_memory_only _ _ _ _ _ h

theorem update_un_memory_only (e : Executor) (sz : Nat) (un : UnOp) (f : Nat → Nat)
    (e1 : Executor) (h : e.update_un sz un f = .ok e1) :
    ∃ m, e1 = { e with memory := m } := by
  unfold Executor.update_un at h
  obtain ⟨l, _, h⟩ := bind_eq_ok h
  obtain ⟨x, _, h⟩ := bind_eq_ok h
  exact set_val_memory_only _ _ _ _ _ h

theorem exec_cnv_memory_only (e : Executor) (h : HostOps) (x y : Operand) (t u : OpType)
    (e1 : Executor) (hx : e.exec_cnv h x y t u = .ok e1) :
    ∃ m, e1 = { e with memory := m } := by
  unfold Executor.exec_cnv at hx
  obtain ⟨v, _, hx⟩ := bind_eq_ok hx
  exact set_val_memory_only _ _ _ _ _ hx

theorem exec_shift_memory_only (e : Executor) (t : OpType) (x y : Operand)
    (f : OpType → Nat → Nat → Nat) (e1 : Executor) (hx : e.exec_shift t x y f = .ok e1) :
    ∃ m, e1 = { e with memory := m } := by
  unfold Executor.exec_shift at hx
  obtain ⟨xv, _, hx⟩ := bind_eq_ok hx
  obtain ⟨yv, _, hx⟩ := bind_eq_ok hx
  exact set_val_memory_only _ _ _ _ _ hx

theorem set_ret_memory_only (e : Executor) (sz : Nat) (un : UnOp) (e1 : Executor)
    (h : e.set_ret sz un = .ok e1) : ∃ m, e1 = { e with memory := m } := by
  unfold Executor.set_ret at h
  obtain ⟨r, _, h⟩ := bind_eq_ok h
  obtain ⟨v, _, h⟩ := bind_eq_ok h
  exact set_val_memory_only _ _ _ _ _ h

theorem update_bin_division_shape (e : Executor) (t : OpType) (bin : BinOp)
    (f : Nat → Nat → Nat) (e1 : Executor) (r : Except ExecutionError Unit)
    (h : e.update_bin_division t bin f = (e1, r)) : ∃ m, e1 = { e with memory := m } := by
  unfold Executor.update_bin_division at h
  cases hrb : e.read_bin_operands bin with
  | error er =>
    simp only [hrb] at h
    exact ⟨e.memory, by rw [← (Prod.mk.inj h).1]⟩
  | ok lr =>
    obtain ⟨left, right⟩ := lr
    simp only [hrb] at h
    cases hx : e.get_val t.size left with
    | error er =>
      simp only [hx] at h
      exact ⟨e.memory, by rw [← (Prod.mk.inj h).1]⟩
    | ok x =>
      simp only [hx] at h
      cases hy : e.get_val t.size right with
      | error er =>
        simp only [hy] at h
        exact ⟨e.memory, by rw [← (Prod.mk.inj h).1]⟩
      | ok y =>
        simp only [hy] at h
        by_cases hz : isZeroVal t y = true
        · rw [if_pos hz] at h
          cases hs : e.set_val t.size left 0 with
          | ok e2 =>
            simp only [hs] at h
            obtain ⟨m, hm⟩ := set_val_memory_only _ _ _ _ _ hs
            exact ⟨m, by rw [← (Prod.mk.inj h).1, hm]⟩
          | error er =>
            simp only [hs] at h
            exact ⟨e.memory, by rw [← (Prod.mk.inj h).1]⟩
        · rw [if_neg hz] at h
          cases hs : e.set_val t.size left (f x y) with
          | ok e2 =>
            simp only [hs] at h
            obtain ⟨m, hm⟩ := set_val_memory_only _ _ _ _ _ hs
            exact ⟨m, by rw [← (Prod.mk.inj h).1, hm]⟩
          | error er =>
            simp only [hs] at h
            exact ⟨e.memory, by rw [← (Prod.mk.inj h).1]⟩

theorem exec_par_shape (e : Executor) (t : OpType) (un : UnOp) :
    ∃ pp m, (e.exec_par t un).1 = { e with parameter_ptr := pp, memory := m } := by
  unfold Executor.exec_par
  cases hc : e.current_call with
  | error er => exact ⟨e.parameter_ptr, e.memory, rfl⟩
  | ok c =>
    simp only []
    cases hg : Executor.get_un { e with parameter_ptr := wadd e.parameter_ptr t.size } t.size un with
    | error er =>
      simp only [hg]
      exact ⟨wadd e.parameter_ptr t.size, e.memory, rfl⟩
    | ok v =>
      simp only [hg]
      cases hs : Executor.set_val { e with parameter_ptr := wadd e.parameter_ptr t.size }
          t.size (.Loc (wadd e.parameter_ptr c.function.frame_size)) v with
      | error er =>
        simp only [hs]
        exact ⟨wadd e.parameter_ptr t.size, e.memory, rfl⟩
      | ok e2 =>
        simp only [hs]
        obtain ⟨m, hm⟩ := set_val_memory_only _ _ _ _ _ hs
        exact ⟨wadd e.parameter_ptr t.size, m, by rw [hm]⟩

theorem app_shape (e : Executor) (fid : Nat) :
    (e.app fid).1 = e ∨
      ∃ f m, e.functions.get? fid = some f ∧
        (e.app fid).1 = { e with
          call_stack := e.call_stack ++ [⟨f, e.memory.stack.length, 0, 0⟩],
          prepared_call := true,
          memory := m } := by
  unfold Executor.app
  cases hf : e.functions.get? fid with
  | none => exact Or.inl rfl
  | some f =>
    simp only []
    cases hx : Memory.expand e.memory f.frame_size with
    | ok m => exact Or.inr ⟨f, m, rfl, rfl⟩
    | error er => exact Or.inr ⟨f, e.memory, rfl, rfl⟩

theorem clf_shape (e : Executor) (rvp : Nat) :
    (e.clf rvp).1 = e ∨ (e.clf rvp).1.prepared_call = false := by
  unfold Executor.clf
  cases hl : e.call_stack.getLast? with
  | none => exact Or.inl rfl
  | some top => exact Or.inr rfl

theorem ret_shape (e : Executor) :
    (e.ret = ((e.ret).1, (e.ret).2)) ∧
      ((e.ret).1 = e ∨
        ∃ top m, e.call_stack.getLast? = some top ∧
          (e.ret).1 = { e with
            call_stack := e.call_stack.dropLast,
            program_counter := top.ret_program_counter,
            memory := m }) := by
  refine ⟨rfl, ?_⟩
  unfold Executor.ret
  cases hl : e.call_stack.getLast? with
  | none => exact Or.inl rfl
  | some top =>
    simp only []
    cases hn : Memory.narrow e.memory top.function.frame_size with
    | ok m => exact Or.inr ⟨top, m, rfl, rfl⟩
    | error er => exact Or.inr ⟨top, e.memory, rfl, rfl⟩

theorem pass_condition_fuel_shape (fuel : Nat) :
    ∀ e : Executor, ∃ n, (Executor.pass_condition_fuel fuel e).1 =
      { e with program_counter := n } := by
  induction fuel with
  | zero =>
    intro e
    exact ⟨e.program_counter, rfl⟩
  | succ fuel ih =>
    intro e
    unfold Executor.pass_condition_fuel
    simp only []
    cases hco : Executor.current_op { e with program_counter := wadd e.program_counter 1 } with
    | error er =>
      simp only [hco]
      exact ⟨wadd e.program_counter 1, rfl⟩
    | ok op =>
      simp only [hco]
      by_cases hc : op.is_conditional = true
      · rw [if_pos hc]
        obtain ⟨n, hn⟩ := ih { e with program_counter := wadd e.program_counter 1 }
        exact ⟨n, hn⟩
      · rw [Bool.not_eq_true] at hc
        rw [hc]
        simp only [Bool.false_eq_true, if_false]
        exact ⟨wadd (wadd e.program_counter 1) 1, rfl⟩

theorem pass_condition_shape (e : Executor) :
    ∃ n, (e.pass_condition).1 = { e with program_counter := n } := by
  unfold Executor.pass_condition
  cases hc : e.current_call with
  | error er => exact ⟨e.program_counter, rfl⟩
  | ok c => exact pass_condition_fuel_shape _ e

theorem stepCond_shape (e : Executor) (res : Bool) :
    ∃ n, (stepCond e res).1 = { e with program_counter := n } := by
  unfold stepCond
  by_cases hr : res = true
  · rw [if_pos hr]
    exact ⟨wadd e.program_counter 1, rfl⟩
  · rw [Bool.not_eq_true] at hr
    rw [hr]
    simp only [Bool.false_eq_true, if_false]
    obtain ⟨n, hn⟩ := pass_condition_shape e
    cases hp : e.pass_condition with
    | mk e1 r =>
      rw [hp] at hn
      cases r with
      | ok u => exact ⟨n, by simp only [hp]; exact hn⟩
      | error er => exact ⟨n, by simp only [hp]; exact hn⟩

theorem cond_bin_shape (e : Executor) (t : OpType) (bin : BinOp)
    (f : OpType → Nat → Nat → Bool) :
    ∃ n, (e.cond_bin t bin f).1 = { e with program_counter := n } := by
  unfold Executor.cond_bin
  cases hr : (do
      let (left, right) ← e.read_bin_operands bin
      let x ← e.get_val t.size left
      let y ← e.get_val t.size right
      pure (f t x y) : Except ExecutionError Bool) with
  | error er =>
    simp only [hr]
    exact ⟨e.program_counter, rfl⟩
  | ok res =>
    simp only [hr]
    exact stepCond_shape e res

theorem stepBin_error_eq (e : Executor) (r : Except ExecutionError Executor)
    (e' : Executor) (err : ExecutionError) (hx : stepBin e r = (e', .error err)) : e' = e := by
  cases r with
  | ok e1 => exact Except.noConfusion (Prod.mk.inj hx).2
  | error er => exact (Prod.mk.inj hx).1.symm

theorem stepPair_error_fst (p : Executor × Except ExecutionError Unit)
    (e' : Executor) (err : ExecutionError) (hx : stepPair p = (e', .error err)) : e' = p.1 := by
  obtain ⟨e1, r⟩ := p
  cases r with
  | ok u => exact Except.noConfusion (Prod.mk.inj hx).2
  | error er => exact (Prod.mk.inj hx).1.symm

theorem exec_op_error_pc (h : HostOps) (e : Executor) (op : Op) (e' : Executor)
    (err : ExecutionError) (hcond : op.is_conditional = false) (hret : op.is_ret = false)
    (hx : e.exec_op h op = (e', .error err)) : e'.program_counter = e.program_counter := by
  cases op with
  | Nop =>
    simp only [Executor.exec_op] at hx
    exact Except.noConfusion (Prod.mk.inj hx).2
  | End x =>
    simp only [Executor.exec_op] at hx
    cases hg : e.get_val wordSize x with
    | ok v =>
      simp only [hg] at hx
      exact Except.noConfusion (Prod.mk.inj hx).2
    | error er =>
      simp only [hg] at hx
      rw [(Prod.mk.inj hx).1.symm]
  | Slp x =>
    simp only [Executor.exec_op] at hx
    cases hg : e.get_val wordSize x with
    | ok v =>
      simp only [hg] at hx
      exact Except.noConfusion (Prod.mk.inj hx).2
    | error er =>
      simp only [hg] at hx
      rw [(Prod.mk.inj hx).1.symm]
  | Set bin t =>
    simp only [Executor.exec_op] at hx
    rw [stepBin_error_eq _ _ _ _ hx]
  | Cnv x y t u =>
    simp only [Executor.exec_op] at hx
    rw [stepBin_error_eq _ _ _ _ hx]
  | Add bin t =>
    simp only [Executor.exec_op] at hx
    rw [stepBin_error_eq _ _ _ _ hx]
  | Sub bin t =>
    simp only [Executor.exec_op] at hx
    rw [stepBin_error_eq _ _ _ _ hx]
  | Mul bin t =>
    simp only [Executor.exec_op] at hx
    rw [stepBin_error_eq _ _ _ _ hx]
  | Div bin t =>
    simp only [Executor.exec_op] at hx
    have h1 := stepPair_error_fst _ _ _ hx
    obtain ⟨m, hm⟩ := update_bin_division_shape e t bin (divOp h t)
      (e.update_bin_division t bin (divOp h t)).1 (e.update_bin_division t bin (divOp h t)).2 rfl
    rw [h1, hm]
  | Mod bin t =>
    simp only [Executor.exec_op] at hx
    have h1 := stepPair_error_fst _ _ _ hx
    obtain ⟨m, hm⟩ := update_bin_division_shape e t bin (modOp h t)
      (e.update_bin_division t bin (modOp h t)).1 (e.update_bin_division t bin (modOp h t)).2 rfl
    rw [h1, hm]
  | Shl x y t =>
    simp only [Executor.exec_op] at hx
    by_cases hf : t.is_float = true
    · rw [if_pos hf] at hx
      rw [(Prod.mk.inj hx).1.symm]
    · rw [Bool.not_eq_true] at hf
      rw [hf] at hx
      simp only [Bool.false_eq_true, if_false] at hx
      rw [stepBin_error_eq _ _ _ _ hx]
  | Shr x y t =>
    simp only [Executor.exec_op] at hx
    by_cases hf : t.is_float = true
    · rw [if_pos hf] at hx
      rw [(Prod.mk.inj hx).1.symm]
    · rw [Bool.not_eq_true] at hf
      rw [hf] at hx
      simp only [Bool.false_eq_true, if_false] at hx
      rw [stepBin_error_eq _ _ _ _ hx]
  | And bin t =>
    simp only [Executor.exec_op] at hx
    by_cases hf : t.is_float = true
    · rw [if_pos hf] at hx
      rw [(Prod.mk.inj hx).1.symm]
    · rw [Bool.not_eq_true] at hf
      rw [hf] at hx
      simp only [Bool.false_eq_true, if_false] at hx
      rw [stepBin_error_eq _ _ _ _ hx]
  | Or bin t =>
    simp only [Executor.exec_op] at hx
    by_cases hf : t.is_float = true
    · rw [if_pos hf] at hx
      rw [(Prod.mk.inj hx).1.symm]
    · rw [Bool.not_eq_true] at hf
      rw [hf] at hx
      simp only [Bool.false_eq_true, if_false] at hx
      rw [stepBin_error_eq _ _ _ _ hx]
  | Xor bin t =>
    simp only [Executor.exec_op] at hx
    by_cases hf : t.is_float = true
    · rw [if_pos hf] at hx
      rw [(Prod.mk.inj hx).1.symm]
    · rw [Bool.not_eq_true] at hf
      rw [hf] at hx
      simp only [Bool.false_eq_true, if_false] at hx
      rw [stepBin_error_eq _ _ _ _ hx]
  | Not un t =>
    simp only [Executor.exec_op] at hx
    by_cases hf : t.is_float = true
    · rw [if_pos hf] at hx
      rw [(Prod.mk.inj hx).1.symm]
    · rw [Bool.not_eq_true] at hf
      rw [hf] at hx
      simp only [Bool.false_eq_true, if_false] at hx
      rw [stepBin_error_eq _ _ _ _ hx]
  | Neg un t =>
    simp only [Executor.exec_op] at hx
    rw [stepBin_error_eq _ _ _ _ hx]
  | Inc un t =>
    simp only [Executor.exec_op] at hx
    rw [stepBin_error_eq _ _ _ _ hx]
  | Dec un t =>
    simp only [Executor.exec_op] at hx
    rw [stepBin_error_eq _ _ _ _ hx]
  | Go x =>
    simp only [Executor.exec_op] at hx
    cases hg : e.get_val wordSize x with
    | ok v =>
      simp only [hg] at hx
      exact Except.noConfusion (Prod.mk.inj hx).2
    | error er =>
      simp only [hg] at hx
      rw [(Prod.mk.inj hx).1.symm]
  | Ift un t => exact absurd hcond (by simp [Op.is_conditional])
  | Iff un t => exact absurd hcond (by simp [Op.is_conditional])
  | Ife bin t => exact absurd hcond (by simp [Op.is_conditional])
  | Ifl bin t => exact absurd hcond (by simp [Op.is_conditional])
  | Ifg bin t => exact absurd hcond (by simp [Op.is_conditional])
  | Ine bin t => exact absurd hcond (by simp [Op.is_conditional])
  | Inl bin t => exact absurd hcond (by simp [Op.is_conditional])
  | Ing bin t => exact absurd hcond (by simp [Op.is_conditional])
  | Ifa bin t => exact absurd hcond (by simp [Op.is_conditional])
  | Ifo bin t => exact absurd hcond (by simp [Op.is_conditional])
  | Ifx bin t => exact absurd hcond (by simp [Op.is_conditional])
  | Ina bin t => exact absurd hcond (by simp [Op.is_conditional])
  | Ino bin t => exact absurd hcond (by simp [Op.is_conditional])
  | Inx bin t => exact absurd hcond (by simp [Op.is_conditional])
  | Cmp x y z => exact absurd hcond (by simp [Op.is_conditional])
  | Ret un t => exact absurd hret (by simp [Op.is_ret])
  | App x =>
    simp only [Executor.exec_op] at hx
    cases hg : e.get_val wordSize x with
    | error er =>
      simp only [hg] at hx
      rw [(Prod.mk.inj hx).1.symm]
    | ok fid =>
      simp only [hg] at hx
      cases ha : e.app fid with
      | mk e1 r =>
        rw [ha] at hx
        cases r with
        | ok u =>
          simp only [] at hx
          exact Except.noConfusion (Prod.mk.inj hx).2
        | error er =>
          simp only [] at hx
          have hpc : e1.program_counter = e.program_counter := by
            rcases app_shape e fid with hs | ⟨f, m, _, hs⟩ <;> rw [ha] at hs <;>
              simp only [] at hs <;> rw [hs]
          rw [(Prod.mk.inj hx).1.symm, hpc]
  | Par un t =>
    simp only [Executor.exec_op] at hx
    have h1 := stepPair_error_fst _ _ _ hx
    obtain ⟨pp, m, hm⟩ := exec_par_shape e t un
    rw [h1, hm]
  | Clf x =>
    simp only [Executor.exec_op] at hx
    cases hg : e.get_val wordSize x with
    | error er =>
      simp only [hg] at hx
      rw [(Prod.mk.inj hx).1.symm]
    | ok rvp =>
      simp only [hg] at hx
      cases hc : e.clf rvp with
      | mk e1 r =>
        rw [hc] at hx
        cases r with
        | ok u => exact Except.noConfusion (Prod.mk.inj hx).2
        | error er =>
          have he1 : e1 = e := by
            unfold Executor.clf at hc
            cases hl : e.call_stack.getLast? with
            | none =>
              rw [hl] at hc
              exact (Prod.mk.inj hc).1.symm
            | some top =>
              rw [hl] at hc
              exact Except.noConfusion (Prod.mk.inj hc).2.symm
          rw [(Prod.mk.inj hx).1.symm, he1]
  | In bin =>
    simp only [Executor.exec_op] at hx
    cases hr : e.files.read with
    | error fe =>
      simp only [hr] at hx
      rw [(Prod.mk.inj hx).1.symm]
    | ok vf =>
      obtain ⟨val, f1⟩ := vf
      simp only [hr] at hx
      cases hrb : Executor.read_bin_operands { e with files := f1 } bin with
      | error er =>
        simp only [hrb] at hx
        rw [(Prod.mk.inj hx).1.symm]
      | ok lr =>
        obtain ⟨left, right⟩ := lr
        simp only [hrb] at hx
        cases hflag : (if right ≠ .Emp then
            Executor.set_val { e with files := f1 } 1 right (if val.isSome then 1 else 0)
          else .ok { e with files := f1 }) with
        | error er =>
          simp only [hflag] at hx
          rw [(Prod.mk.inj hx).1.symm]
        | ok e2 =>
          simp only [hflag] at hx
          have he2 : e2.program_counter = e.program_counter := by
            by_cases hemp : right ≠ .Emp
            · rw [if_pos hemp] at hflag
              obtain ⟨m, hm⟩ := set_val_memory_only _ _ _ _ _ hflag
              rw [hm]
            · rw [if_neg hemp] at hflag
              rw [(Except.ok.inj hflag).symm]
          cases hs2 : e2.set_val 1 left (val.getD 0) with
          | error er =>
            simp only [hs2] at hx
            rw [(Prod.mk.inj hx).1.symm, he2]
          | ok e3 =>
            simp only [hs2] at hx
            exact Except.noConfusion (Prod.mk.inj hx).2
  | Out un =>
    simp only [Executor.exec_op] at hx
    cases hg : (do
        let o ← e.read_un_operand un
        e.get_val 1 o : Except ExecutionError Nat) with
    | error er =>
      simp only [hg] at hx
      rw [(Prod.mk.inj hx).1.symm]
    | ok v =>
      simp only [hg] at hx
      cases hw : e.files.write v with
      | error fe =>
        simp only [hw] at hx
        rw [(Prod.mk.inj hx).1.symm]
      | ok f1 =>
        simp only [hw] at hx
        exact Except.noConfusion (Prod.mk.inj hx).2
  | Fls =>
    simp only [Executor.exec_op] at hx
    cases hw : e.files.flush with
    | error fe =>
      simp only [hw] at hx
      rw [(Prod.mk.inj hx).1.symm]
    | ok f1 =>
      simp only [hw] at hx
      exact Except.noConfusion (Prod.mk.inj hx).2
  | Sfd x =>
    simp only [Executor.exec_op] at hx
    cases hg : e.get_val wordSize x with
    | error er =>
      simp only [hg] at hx
      rw [(Prod.mk.inj hx).1.symm]
    | ok hdl =>
      simp only [hg] at hx
      cases hw : e.files.set_current hdl with
      | error fe =>
        simp only [hw] at hx
        rw [(Prod.mk.inj hx).1.symm]
      | ok f1 =>
        simp only [hw] at hx
        exact Except.noConfusion (Prod.mk.inj hx).2
  | Gfd x =>
    simp only [Executor.exec_op] at hx
    cases hc : e.files.current_fd with
    | error fe =>
      simp only [hc] at hx
      rw [(Prod.mk.inj hx).1.symm]
    | ok hdl =>
      simp only [hc] at hx
      cases hs : e.set_val wordSize x hdl with
      | error er =>
        simp only [hs] at hx
        rw [(Prod.mk.inj hx).1.symm]
      | ok e1 =>
        simp only [hs] at hx
        exact Except.noConfusion (Prod.mk.inj hx).2
  | Zer x y =>
    simp only [Executor.exec_op] at hx
    cases hg : (do
        let dest ← e.get_val wordSize x
        let size ← e.get_val wordSize y
        memRes (e.memory.set_zeros dest size) : Except ExecutionError Memory) with
    | error er =>
      simp only [hg] at hx
      rw [(Prod.mk.inj hx).1.symm]
    | ok m =>
      simp only [hg] at hx
      exact Except.noConfusion (Prod.mk.inj hx).2
  | Cpy x y z =>
    simp only [Executor.exec_op] at hx
    cases hg : (do
        let dest ← e.get_val wordSize x
        let src ← e.get_val wordSize y
        let size ← e.get_val wordSize z
        memRes (e.memory.copy dest src size) : Except ExecutionError Memory) with
    | error er =>
      simp only [hg] at hx
      rw [(Prod.mk.inj hx).1.symm]
    | ok m =>
      simp only [hg] at hx
      exact Except.noConfusion (Prod.mk.inj hx).2

/-- C3 (amended): when `execute()` returns an error, the program counter is
unchanged, provided the fetched operation is not in the conditional-skip
family (`Ift`/`Iff`/`Ife`/…/`Inx`/`Cmp`, whose failed-guard scan can hit the
end of the program with the PC already advanced) and is not `Ret` (whose
stack narrow can fail after the PC was already restored).  A failed fetch
itself also leaves the PC unchanged. -/
theorem c3_error_preserves_pc :
    ∀ (h : HostOps) (e e' : Executor) (err : ExecutionError),
      e.execute h = (e', .error err) →
      (∀ op, e.current_op = .ok op → op.is_conditional = false ∧ op.is_ret = false) →
      e'.program_counter = e.program_counter := by
  intro h e e' err hx hops
  unfold Executor.execute at hx
  cases hco : e.current_op with
  | error er =>
    rw [hco] at hx
    rw [(Prod.mk.inj hx).1.symm]
  | ok op =>
    rw [hco] at hx
    obtain ⟨hcond, hret⟩ := hops op hco
    exact exec_op_error_pc h e op e' err hcond hret hx

/-- C3 counterexample: a false `Ift` as the last instruction makes
`execute()` return `EndOfProgram` with the program counter advanced from 0
to 1 — an error after which the PC is not the same. -/
theorem c3_counterexample :
    (iftOnlyE.execute hostOps0).2 = .error .EndOfProgram ∧
      iftOnlyE.program_counter = 0 ∧
      (iftOnlyE.execute hostOps0).1.program_counter = 1 :=
  ⟨rfl, rfl, rfl⟩

/-- C3 witness: the failing `Div` of the C1 scenario (not a conditional,
not a `Ret`) leaves the PC unchanged. -/
theorem c3_witness : (exDiv.execute hostOps0).1.program_counter = exDiv.program_counter := by
  apply c3_error_preserves_pc hostOps0 exDiv _ .DivisionByZero
  · rfl
  · intro op hop
    have hco : exDiv.current_op = .ok (.Div (BinOp.new (.Loc 0) (.Val 0)) .I32) := rfl
    rw [hco] at hop
    rw [← Except.ok.inj hop]
    exact ⟨rfl, rfl⟩

/-- C4 (amended): a successful `End(x)` returns `ExecutionSuccess::End(v)`
and a successful `Slp(x)` returns `Sleep(v)`, with `v` the operand read as
a word — and in both cases the bottom-of-`execute` advance runs: the PC
moves one past the instruction (there is no early return in these arms). -/
theorem c4_end_slp_advance :
    ∀ (h : HostOps) (e : Executor) (x : Operand) (v : Nat),
      (e.current_op = .ok (.End x) → e.get_val wordSize x = .ok v →
        e.execute h = (e.advance_pc, .ok (.End v))) ∧
      (e.current_op = .ok (.Slp x) → e.get_val wordSize x = .ok v →
        e.execute h = (e.advance_pc, .ok (.Sleep v))) ∧
      e.advance_pc.program_counter = wadd e.program_counter 1 := by
  intro h e x v
  refine ⟨?_, ?_, rfl⟩ <;> intro hco hval <;>
    simp [Executor.execute, hco, Executor.exec_op, hval]

/-- C4 counterexample: executing `End(Val 5)` at PC 0 returns `End 5` but
leaves the PC at 1, advanced past the `End`. -/
theorem c4_counterexample :
    (endOnlyE.execute hostOps0).2 = .ok (.End 5) ∧
      endOnlyE.program_counter = 0 ∧
      (endOnlyE.execute hostOps0).1.program_counter = 1 :=
  ⟨rfl, rfl, rfl⟩

/-- C4 witness: the `End(Val 5)` program executes to `(advance_pc, End 5)`. -/
theorem c4_witness : endOnlyE.execute hostOps0 = (endOnlyE.advance_pc, .ok (.End 5)) :=
  (c4_end_slp_advance hostOps0 endOnlyE (.Val 5) 5).1 rfl rfl

/-- C1 (amended): a `Div` or `Mod` whose divisor operand reads as zero makes
`execute()` return `DivisionByZero` with the PC unchanged — but a write
does occur: the closure passed to `update_bin` yields `T::zero()`, which is
stored to the destination (when that write succeeds) before the error is
reported. -/
theorem c1_division_by_zero_writes_zero :
    ∀ (h : HostOps) (e : Executor) (bin : BinOp) (t : OpType) (l r : Operand) (x y : Nat),
      (e.current_op = .ok (.Div bin t) ∨ e.current_op = .ok (.Mod bin t)) →
      e.read_bin_operands bin = .ok (l, r) →
      e.get_val t.size l = .ok x →
      e.get_val t.size r = .ok y →
      isZeroVal t y = true →
      e.execute h = ((match e.set_val t.size l 0 with
                      | .ok e1 => e1
                      | .error _ => e), .error .DivisionByZero) ∧
        (e.execute h).1.program_counter = e.program_counter := by
  intro h e bin t l r x y hop hrb hx hy hz
  have key : ∀ f : Nat → Nat → Nat, e.update_bin_division t bin f =
      ((match e.set_val t.size l 0 with
        | .ok e1 => e1
        | .error _ => e), .error .DivisionByZero) := by
    intro f
    unfold Executor.update_bin_division
    simp only [hrb, hx, hy, hz, if_true]
    cases hs : e.set_val t.size l 0 <;> simp only [hs]
  have hpc : ∀ e1, e.set_val t.size l 0 = .ok e1 → e1.program_counter = e.program_counter := by
    intro e1 hs
    obtain ⟨m, hm⟩ := set_val_memory_only _ _ _ _ _ hs
    rw [hm]
  rcases hop with hco | hco <;>
    {
      unfold Executor.execute
      rw [hco]
      simp only [Executor.exec_op, stepPair, key]
      constructor
      · trivial
      · cases hs : e.set_val t.size l 0 with
        | ok e1 => simp only [hs]; exact hpc e1 hs
        | error er => simp only [hs]
    }

/-- C1 counterexample: with `Loc(0)` holding the `i32` value 8, executing
`Div(Loc(0), Val(0), I32)` returns `DivisionByZero` — and the destination's
memory bytes have changed from `[8,0,0,0]` to `[0,0,0,0]`. -/
theorem c1_counterexample :
    (exDiv.execute hostOps0).2 = .error .DivisionByZero ∧
      exDiv.memory.stack = [8, 0, 0, 0] ∧
      (exDiv.execute hostOps0).1.memory.stack = [0, 0, 0, 0] :=
  ⟨rfl, rfl, rfl⟩

/-- C1 witness: the amended theorem applied to the concrete scenario. -/
theorem c1_witness :
    exDiv.execute hostOps0 = ((match exDiv.set_val (OpType.I32).size (.Loc 0) 0 with
        | .ok e1 => e1
        | .error _ => exDiv), .error .DivisionByZero) ∧
      (exDiv.execute hostOps0).1.program_counter = exDiv.program_counter :=
  c1_division_by_zero_writes_zero hostOps0 exDiv (BinOp.new (.Loc 0) (.Val 0)) .I32
    (.Loc 0) (.Val 0) 8 0 (Or.inl rfl) rfl rfl rfl rfl

theorem memRes_ok {α : Type} (x : Except MemoryError α) (a : α) :
    memRes x = .ok a ↔ x = .ok a := by
  cases x <;> simp [memRes]

theorem current_call_set_pp (e : Executor) (p : Nat) :
    Executor.current_call { e with parameter_ptr := p } = e.current_call := rfl

theorem get_un_set_pp (e : Executor) (p sz : Nat) (un : UnOp) :
    Executor.get_un { e with parameter_ptr := p } sz un = e.get_un sz un := rfl

/-- C2 (amended): for every `Par(UnOp, T)` executed during a prepared call,
the argument is read as `T` in the caller's context, and it is written at
the absolute address `caller.base_ptr + caller.frame_size + parameter_ptr`
— `exec_par` uses the frame size of the *current* (caller) call, not the
callee's, so the value lands at offset `parameter_ptr` inside the callee
frame (the callee was pushed at `caller.base_ptr + caller.frame_size`).
`parameter_ptr` is then incremented by `sizeof(T)` and the PC advances. -/
theorem c2_par_caller_frame :
    ∀ (h : HostOps) (e : Executor) (un : UnOp) (t : OpType) (c : FunctionCall)
      (e' : Executor) (s : ExecutionSuccess),
      e.prepared_call = true →
      e.current_op = .ok (.Par un t) →
      e.current_call = .ok c →
      e.execute h = (e', .ok s) →
      s = .Ok ∧
        e'.program_counter = wadd e.program_counter 1 ∧
        e'.parameter_ptr = wadd e.parameter_ptr t.size ∧
        e'.call_stack = e.call_stack ∧
        e'.prepared_call = true ∧
        ∃ v m, e.get_un t.size un = .ok v ∧
          e.memory.set (wadd c.base_ptr (wadd e.parameter_ptr c.function.frame_size))
            t.size v = .ok m ∧
          e'.memory = m := by
  intro h e un t c e' s hp hco hcc hx
  unfold Executor.execute at hx
  rw [hco] at hx
  simp only [Executor.exec_op, Executor.exec_par, hcc] at hx
  rw [get_un_set_pp] at hx
  cases hg : e.get_un t.size un with
  | error er =>
    simp only [hg] at hx
    simp only [stepPair] at hx
    exact Except.noConfusion (Prod.mk.inj hx).2
  | ok v =>
    simp only [hg] at hx
    cases hs : Executor.set_val { e with parameter_ptr := wadd e.parameter_ptr t.size }
        t.size (.Loc (wadd e.parameter_ptr c.function.frame_size)) v with
    | error er =>
      simp only [hs] at hx
      simp only [stepPair] at hx
      exact Except.noConfusion (Prod.mk.inj hx).2
    | ok e2 =>
      simp only [hs] at hx
      simp only [stepPair] at hx
      have he' := (Prod.mk.inj hx).1.symm
      have hs' := (Prod.mk.inj hx).2.symm
      simp only [Executor.set_val, current_call_set_pp, hcc, bind_ok_eq] at hs
      obtain ⟨m, hm, hs⟩ := bind_eq_ok hs
      rw [memRes_ok] at hm
      have he2 : e2 = { e with parameter_ptr := wadd e.parameter_ptr t.size, memory := m } :=
        (Except.ok.inj hs).symm
      have hsOk : s = .Ok := (Except.ok.inj hs'.symm).symm
      refine ⟨hsOk, ?_, ?_, ?_, ?_, ?_⟩
      · rw [he', he2]
        rfl
      · rw [he', he2]
        rfl
      · rw [he', he2]
        rfl
      · rw [he', he2]
        exact hp
      · exact ⟨v, m, rfl, hm, by rw [he', he2]; rfl⟩

/-- C2 counterexample: in the `executor_call_fn` scenario (caller frame 4,
callee frame 8, pushed at base 4), the marshalled `i32` argument 2 lands at
absolute address 4 (`callee.base_ptr + parameter_ptr`); the address claimed
by the spec, `callee.base_ptr + callee.frame_size + parameter_ptr = 12`, is
not even inside the 12-byte stack. -/
theorem c2_counterexample :
    parE3.memory.stack.length = 12 ∧
      parE2.call_stack.getLast? = some ⟨⟨8, [.Nop]⟩, 4, 0, 0⟩ ∧
      parE3.memory.get 4 4 = .ok 2 ∧
      parE3.memory.get 12 4 = .error .outOfBounds :=
  ⟨rfl, rfl, rfl, rfl⟩

/-- C2 witness: the amended theorem applied to the concrete `Par` step. -/
theorem c2_witness :
    parE3.program_counter = wadd parE2.program_counter 1 ∧
      parE3.parameter_ptr = wadd parE2.parameter_ptr (OpType.I32).size := by
  have h := c2_par_caller_frame hostOps0 parE2 (UnOp.new (.Val 2)) .I32
    ⟨⟨4, [.App (.Val 1), .Par (UnOp.new (.Val 2)) .I32]⟩, 0, 0, 1⟩ parE3 .Ok rfl rfl rfl rfl
  exact ⟨h.2.1, h.2.2.1⟩

theorem current_call_set_pc (e : Executor) (p : Nat) :
    Executor.current_call { e with program_counter := p } = e.current_call := rfl

theorem current_op_ok_iff (e : Executor) (c : FunctionCall) (op : Op)
    (hcc : e.current_call = .ok c) :
    e.current_op = .ok op ↔ c.function.program.get? e.program_counter = some op := by
  unfold Executor.current_op
  rw [hcc, bind_ok_eq]
  cases hg : c.function.program.get? e.program_counter with
  | none => simp
  | some op2 => simp

theorem pass_condition_fuel_char :
    ∀ (fuel : Nat) (e e' : Executor) (c : FunctionCall),
      e.current_call = .ok c →
      c.function.program.length < wordMod →
      e.program_counter < c.function.program.length →
      Executor.pass_condition_fuel fuel e = (e', .ok ()) →
      ∃ j, e.program_counter < j ∧ j < c.function.program.length ∧
        (∀ k, e.program_counter < k → k < j →
          ∃ opk, c.function.program.get? k = some opk ∧ opk.is_conditional = true) ∧
        (∃ opj, c.function.program.get? j = some opj ∧ opj.is_conditional = false) ∧
        e' = { e with program_counter := j + 1 } := by
  intro fuel
  induction fuel with
  | zero =>
    intro e e' c _ _ _ hx
    exact absurd (Prod.mk.inj hx).2 (by simp)
  | succ fuel ih =>
    intro e e' c hcc hlen hpc hx
    have hw1 : wadd e.program_counter 1 = e.program_counter + 1 :=
      Nat.mod_eq_of_lt (by omega)
    unfold Executor.pass_condition_fuel at hx
    simp only [] at hx
    cases hco1 : Executor.current_op
        { e with program_counter := wadd e.program_counter 1 } with
    | error er =>
      simp only [hco1] at hx
      exact absurd (Prod.mk.inj hx).2 (by simp)
    | ok op =>
      simp only [hco1] at hx
      have hcc1 : Executor.current_call
          { e with program_counter := wadd e.program_counter 1 } = .ok c := by
        rw [current_call_set_pc]
        exact hcc
      have hget : c.function.program.get? (wadd e.program_counter 1) = some op :=
        (current_op_ok_iff _ c op hcc1).mp hco1
      have hpc1lt : wadd e.program_counter 1 < c.function.program.length := by
        obtain ⟨hlt, _⟩ := List.get?_eq_some.mp hget
        exact hlt
      by_cases hc : op.is_conditional = true
      · rw [if_pos hc] at hx
        obtain ⟨j, hj1, hj2, hmid, hlast, he'⟩ :=
          ih { e with program_counter := wadd e.program_counter 1 } e' c hcc1 hlen hpc1lt hx
        have hj1' : wadd e.program_counter 1 < j := hj1
        rw [hw1] at hj1'
        refine ⟨j, by omega, hj2, ?_, hlast, ?_⟩
        · intro k hk1 hk2
          by_cases hke : k = e.program_counter + 1
          · refine ⟨op, ?_, hc⟩
            rw [hke, ← hw1]
            exact hget
          · refine hmid k ?_ hk2
            show wadd e.program_counter 1 < k
            rw [hw1]
            omega
        · exact he'
      · rw [Bool.not_eq_true] at hc
        rw [hc] at hx
        simp only [Bool.false_eq_true, if_false] at hx
        have he' := (Prod.mk.inj hx).1.symm
        have hw2 : wadd (wadd e.program_counter 1) 1 = (e.program_counter + 1) + 1 := by
          rw [hw1]
          exact Nat.mod_eq_of_lt (by omega)
        refine ⟨e.program_counter + 1, by omega, by rw [← hw1]; exact hpc1lt, ?_, ?_, ?_⟩
        · intro k hk1 hk2
          omega
        · refine ⟨op, ?_, hc⟩
          rw [hw1] at hget
          exact hget
        · rw [he']
          simp only [hw2]

/-- C5: when a conditional test evaluates to false the executor runs
`pass_condition`: the PC is incremented, scans over the contiguous run of
conditional operations that follows, and stops one past the first
non-conditional operation — so exactly one non-conditional and all
intervening conditionals after the failed guard are skipped.  The first
conjunct characterises every successful `pass_condition`; the second shows
a false conditional (`Iff` with a non-zero value) makes `execute` return
exactly the `pass_condition` result. -/
theorem c5_conditional_skip :
    (∀ (e e' : Executor) (c : FunctionCall),
      e.current_call = .ok c →
      c.function.program.length < wordMod →
      e.program_counter < c.function.program.length →
      e.pass_condition = (e', .ok ()) →
      ∃ j, e.program_counter < j ∧ j < c.function.program.length ∧
        (∀ k, e.program_counter < k → k < j →
          ∃ opk, c.function.program.get? k = some opk ∧ opk.is_conditional = true) ∧
        (∃ opj, c.function.program.get? j = some opj ∧ opj.is_conditional = false) ∧
        e' = { e with program_counter := j + 1 }) ∧
    (∀ (h : HostOps) (e : Executor) (un : UnOp) (t : OpType) (v : Nat),
      e.current_op = .ok (.Iff un t) →
      e.get_un t.size un = .ok v →
      isFalseTest t v = false →
      e.execute h = (match e.pass_condition with
        | (e1, .ok _) => (e1, .ok .Ok)
        | (e1, .error er) => (e1, .error er))) := by
  constructor
  · intro e e' c hcc hlen hpc hx
    unfold Executor.pass_condition at hx
    rw [hcc] at hx
    exact pass_condition_fuel_char _ e e' c hcc hlen hpc hx
  · intro h e un t v hco hun hfalse
    unfold Executor.execute
    rw [hco]
    simp only [Executor.exec_op, hun, stepCond, hfalse, Bool.false_eq_true, if_false]

/-- C5 witness: on the concrete conditional chain, the skip lands one past
the first non-conditional (`j = 2`, final PC 3). -/
theorem c5_witness :
    ∃ j, skipE.program_counter < j ∧ j < 4 ∧
      (skipE.pass_condition).1 = { skipE with program_counter := j + 1 } := by
  obtain ⟨j, h1, h2, _, _, he⟩ := c5_conditional_skip.1 skipE (skipE.pass_condition).1
    ⟨⟨0, [.Ift (UnOp.new (.Val 0)) .U8, .Ife (BinOp.new (.Val 0) (.Val 0)) .U8,
          .Nop, .Nop]⟩, 0, 0, 0⟩ rfl (by decide) (by decide) rfl
  exact ⟨j, h1, h2, he⟩

theorem stepBin_stack (e : Executor) (r : Except ExecutionError Executor)
    (hr : ∀ e1, r = .ok e1 → ∃ m, e1 = { e with memory := m }) :
    (stepBin e r).1.call_stack = e.call_stack ∧
      (stepBin e r).1.prepared_call = e.prepared_call := by
  cases r with
  | error er => exact ⟨rfl, rfl⟩
  | ok e1 =>
    obtain ⟨m, hm⟩ := hr e1 rfl
    subst hm
    exact ⟨rfl, rfl⟩

theorem stepPair_fields (p : Executor × Except ExecutionError Unit) :
    (stepPair p).1.call_stack = p.1.call_stack ∧
      (stepPair p).1.prepared_call = p.1.prepared_call := by
  obtain ⟨e1, r⟩ := p
  cases r <;> exact ⟨rfl, rfl⟩

theorem exec_op_stack_prepared (h : HostOps) (e : Executor) (op : Op)
    (hna : op.is_app = false) (hnc : op.is_clf = false) (hnr : op.is_ret = false) :
    (e.exec_op h op).1.call_stack = e.call_stack ∧
      (e.exec_op h op).1.prepared_call = e.prepared_call := by
  cases op with
  | App x => exact absurd hna (by simp [Op.is_app])
  | Clf x => exact absurd hnc (by simp [Op.is_clf])
  | Ret un t => exact absurd hnr (by simp [Op.is_ret])
  | Nop => exact ⟨rfl, rfl⟩
  | End x =>
    simp only [Executor.exec_op]
    cases hg : e.get_val wordSize x <;> exact ⟨rfl, rfl⟩
  | Slp x =>
    simp only [Executor.exec_op]
    cases hg : e.get_val wordSize x <;> exact ⟨rfl, rfl⟩
  | Set bin t =>
    exact stepBin_stack e _ (fun e1 h1 => update_bin_memory_only _ _ _ _ _ h1)
  | Cnv x y t u =>
    exact stepBin_stack e _ (fun e1 h1 => exec_cnv_memory_only _ _ _ _ _ _ _ h1)
  | Add bin t =>
    exact stepBin_stack e _ (fun e1 h1 => update_bin_memory_only _ _ _ _ _ h1)
  | Sub bin t =>
    exact stepBin_stack e _ (fun e1 h1 => update_bin_memory_only _ _ _ _ _ h1)
  | Mul bin t =>
    exact stepBin_stack e _ (fun e1 h1 => update_bin_memory_only _ _ _ _ _ h1)
  | Div bin t =>
    obtain ⟨m, hm⟩ := update_bin_division_shape e t bin (divOp h t)
      (e.update_bin_division t bin (divOp h t)).1 (e.update_bin_division t bin (divOp h t)).2 rfl
    have hf := stepPair_fields (e.update_bin_division t bin (divOp h t))
    simp only [Executor.exec_op]
    rw [hf.1, hf.2, hm]
    exact ⟨rfl, rfl⟩
  | Mod bin t =>
    obtain ⟨m, hm⟩ := update_bin_division_shape e t bin (modOp h t)
      (e.update_bin_division t bin (modOp h t)).1 (e.update_bin_division t bin (modOp h t)).2 rfl
    have hf := stepPair_fields (e.update_bin_division t bin (modOp h t))
    simp only [Executor.exec_op]
    rw [hf.1, hf.2, hm]
    exact ⟨rfl, rfl⟩
  | Shl x y t =>
    simp only [Executor.exec_op]
    by_cases hflt : t.is_float = true
    · rw [if_pos hflt]
      exact ⟨rfl, rfl⟩
    · rw [Bool.not_eq_true] at hflt
      rw [hflt]
      simp only [Bool.false_eq_true, if_false]
      exact stepBin_stack e _ (fun e1 h1 => exec_shift_memory_only _ _ _ _ _ _ h1)
  | Shr x y t =>
    simp only [Executor.exec_op]
    by_cases hflt : t.is_float = true
    · rw [if_pos hflt]
      exact ⟨rfl, rfl⟩
    · rw [Bool.not_eq_true] at hflt
      rw [hflt]
      simp only [Bool.false_eq_true, if_false]
      exact stepBin_stack e _ (fun e1 h1 => exec_shift_memory_only _ _ _ _ _ _ h1)
  | And bin t =>
    simp only [Executor.exec_op]
    by_cases hflt : t.is_float = true
    · rw [if_pos hflt]
      exact ⟨rfl, rfl⟩
    · rw [Bool.not_eq_true] at hflt
      rw [hflt]
      simp only [Bool.false_eq_true, if_false]
      exact stepBin_stack e _ (fun e1 h1 => update_bin_memory_only _ _ _ _ _ h1)
  | Or bin t =>
    simp only [Executor.exec_op]
    by_cases hflt : t.is_float = true
    · rw [if_pos hflt]
      exact ⟨rfl, rfl⟩
    · rw [Bool.not_eq_true] at hflt
      rw [hflt]
      simp only [Bool.false_eq_true, if_false]
      exact stepBin_stack e _ (fun e1 h1 => update_bin_memory_only _ _ _ _ _ h1)
  | Xor bin t =>
    simp only [Executor.exec_op]
    by_cases hflt : t.is_float = true
    · rw [if_pos hflt]
      exact ⟨rfl, rfl⟩
    · rw [Bool.not_eq_true] at hflt
      rw [hflt]
      simp only [Bool.false_eq_true, if_false]
      exact stepBin_stack e _ (fun e1 h1 => update_bin_memory_only _ _ _ _ _ h1)
  | Not un t =>
    simp only [Executor.exec_op]
    by_cases hflt : t.is_float = true
    · rw [if_pos hflt]
      exact ⟨rfl, rfl⟩
    · rw [Bool.not_eq_true] at hflt
      rw [hflt]
      simp only [Bool.false_eq_true, if_false]
      exact stepBin_stack e _ (fun e1 h1 => update_un_memory_only _ _ _ _ _ h1)
  | Neg un t =>
    exact stepBin_stack e _ (fun e1 h1 => update_un_memory_only _ _ _ _ _ h1)
  | Inc un t =>
    exact stepBin_stack e _ (fun e1 h1 => update_un_memory_only _ _ _ _ _ h1)
  | Dec un t =>
    exact stepBin_stack e _ (fun e1 h1 => update_un_memory_only _ _ _ _ _ h1)
  | Go x =>
    simp only [Executor.exec_op]
    cases hg : e.get_val wordSize x <;> exact ⟨rfl, rfl⟩
  | Ift un t =>
    simp only [Executor.exec_op]
    cases hg : e.get_un t.size un with
    | error er => exact ⟨rfl, rfl⟩
    | ok v =>
      obtain ⟨n, hn⟩ := stepCond_shape e (isTrueTest t v)
      rw [hn]
      exact ⟨rfl, rfl⟩
  | Iff un t =>
    simp only [Executor.exec_op]
    cases hg : e.get_un t.size un with
    | error er => exact ⟨rfl, rfl⟩
    | ok v =>
      obtain ⟨n, hn⟩ := stepCond_shape e (isFalseTest t v)
      rw [hn]
      exact ⟨rfl, rfl⟩
  | Ife bin t =>
    simp only [Executor.exec_op]
    obtain ⟨n, hn⟩ := cond_bin_shape e t bin eqTest
    rw [hn]
    exact ⟨rfl, rfl⟩
  | Ifl bin t =>
    simp only [Executor.exec_op]
    obtain ⟨n, hn⟩ := cond_bin_shape e t bin ltTest
    rw [hn]
    exact ⟨rfl, rfl⟩
  | Ifg bin t =>
    simp only [Executor.exec_op]
    obtain ⟨n, hn⟩ := cond_bin_shape e t bin gtTest
    rw [hn]
    exact ⟨rfl, rfl⟩
  | Ine bin t =>
    simp only [Executor.exec_op]
    obtain ⟨n, hn⟩ := cond_bin_shape e t bin neTest
    rw [hn]
    exact ⟨rfl, rfl⟩
  | Inl bin t =>
    simp only [Executor.exec_op]
    obtain ⟨n, hn⟩ := cond_bin_shape e t bin geTest
    rw [hn]
    exact ⟨rfl, rfl⟩
  | Ing bin t =>
    simp only [Executor.exec_op]
    obtain ⟨n, hn⟩ := cond_bin_shape e t bin leTest
    rw [hn]
    exact ⟨rfl, rfl⟩
  | Ifa bin t =>
    simp only [Executor.exec_op]
    by_cases hflt : t.is_float = true
    · rw [if_pos hflt]
      exact ⟨rfl, rfl⟩
    · rw [Bool.not_eq_true] at hflt
      rw [hflt]
      simp only [Bool.false_eq_true, if_false]
      obtain ⟨n, hn⟩ := cond_bin_shape e t bin andNzTest
      rw [hn]
      exact ⟨rfl, rfl⟩
  | Ifo bin t =>
    simp only [Executor.exec_op]
    by_cases hflt : t.is_float = true
    · rw [if_pos hflt]
      exact ⟨rfl, rfl⟩
    · rw [Bool.not_eq_true] at hflt
      rw [hflt]
      simp only [Bool.false_eq_true, if_false]
      obtain ⟨n, hn⟩ := cond_bin_shape e t bin orNzTest
      rw [hn]
      exact ⟨rfl, rfl⟩
  | Ifx bin t =>
    simp only [Executor.exec_op]
    by_cases hflt : t.is_float = true
    · rw [if_pos hflt]
      exact ⟨rfl, rfl⟩
    · rw [Bool.not_eq_true] at hflt
      rw [hflt]
      simp only [Bool.false_eq_true, if_false]
      obtain ⟨n, hn⟩ := cond_bin_shape e t bin xorNzTest
      rw [hn]
      exact ⟨rfl, rfl⟩
  | Ina bin t =>
    simp only [Executor.exec_op]
    by_cases hflt : t.is_float = true
    · rw [if_pos hflt]
      exact ⟨rfl, rfl⟩
    · rw [Bool.not_eq_true] at hflt
      rw [hflt]
      simp only [Bool.false_eq_true, if_false]
      obtain ⟨n, hn⟩ := cond_bin_shape e t bin andZTest
      rw [hn]
      exact ⟨rfl, rfl⟩
  | Ino bin t =>
    simp only [Executor.exec_op]
    by_cases hflt : t.is_float = true
    · rw [if_pos hflt]
      exact ⟨rfl, rfl⟩
    · rw [Bool.not_eq_true] at hflt
      rw [hflt]
      simp only [Bool.false_eq_true, if_false]
      obtain ⟨n, hn⟩ := cond_bin_shape e t bin orZTest
      rw [hn]
      exact ⟨rfl, rfl⟩
  | Inx bin t =>
    simp only [Executor.exec_op]
    by_cases hflt : t.is_float = true
    · rw [if_pos hflt]
      exact ⟨rfl, rfl⟩
    · rw [Bool.not_eq_true] at hflt
      rw [hflt]
      simp only [Bool.false_eq_true, if_false]
      obtain ⟨n, hn⟩ := cond_bin_shape e t bin xorZTest
      rw [hn]
      exact ⟨rfl, rfl⟩
  | Par un t =>
    obtain ⟨pp, m, hm⟩ := exec_par_shape e t un
    have hf := stepPair_fields (e.exec_par t un)
    simp only [Executor.exec_op]
    rw [hf.1, hf.2, hm]
    exact ⟨rfl, rfl⟩
  | In bin =>
    simp only [Executor.exec_op]
    cases hr : e.files.read with
    | error fe => exact ⟨rfl, rfl⟩
    | ok vf =>
      obtain ⟨val, f1⟩ := vf
      simp only []
      cases hrb : Executor.read_bin_operands { e with files := f1 } bin with
      | error er => exact ⟨rfl, rfl⟩
      | ok lr =>
        obtain ⟨left, right⟩ := lr
        simp only []
        cases hflag : (if right ≠ .Emp then
            Executor.set_val { e with files := f1 } 1 right (if val.isSome then 1 else 0)
          else .ok { e with files := f1 }) with
        | error er => exact ⟨rfl, rfl⟩
        | ok e2 =>
          simp only []
          have he2 : e2.call_stack = e.call_stack ∧ e2.prepared_call = e.prepared_call := by
            by_cases hemp : right ≠ .Emp
            · rw [if_pos hemp] at hflag
              obtain ⟨m, hm⟩ := set_val_memory_only _ _ _ _ _ hflag
              rw [hm]
              exact ⟨rfl, rfl⟩
            · rw [if_neg hemp] at hflag
              rw [(Except.ok.inj hflag).symm]
              exact ⟨rfl, rfl⟩
          cases hs2 : e2.set_val 1 left (val.getD 0) with
          | error er => exact he2
          | ok e3 =>
            obtain ⟨m, hm⟩ := set_val_memory_only _ _ _ _ _ hs2
            rw [hm]
            simp only [Executor.advance_pc]
            exact he2
  | Out un =>
    simp only [Executor.exec_op]
    cases hg : (do
        let o ← e.read_un_operand un
        e.get_val 1 o : Except ExecutionError Nat) with
    | error er => exact ⟨rfl, rfl⟩
    | ok v =>
      simp only []
      cases hw : e.files.write v <;> exact ⟨rfl, rfl⟩
  | Fls =>
    simp only [Executor.exec_op]
    cases hw : e.files.flush <;> exact ⟨rfl, rfl⟩
  | Sfd x =>
    simp only [Executor.exec_op]
    cases hg : e.get_val wordSize x with
    | error er => exact ⟨rfl, rfl⟩
    | ok hdl =>
      simp only []
      cases hw : e.files.set_current hdl <;> exact ⟨rfl, rfl⟩
  | Gfd x =>
    simp only [Executor.exec_op]
    cases hc : e.files.current_fd with
    | error fe => exact ⟨rfl, rfl⟩
    | ok hdl =>
      simp only []
      cases hs : e.set_val wordSize x hdl with
      | error er => exact ⟨rfl, rfl⟩
      | ok e1 =>
        obtain ⟨m, hm⟩ := set_val_memory_only _ _ _ _ _ hs
        rw [hm]
        exact ⟨rfl, rfl⟩
  | Zer x y =>
    simp only [Executor.exec_op]
    cases hg : (do
        let dest ← e.get_val wordSize x
        let size ← e.get_val wordSize y
        memRes (e.memory.set_zeros dest size) : Except ExecutionError Memory) with
    | error er => exact ⟨rfl, rfl⟩
    | ok m => exact ⟨rfl, rfl⟩
  | Cmp x y z =>
    simp only [Executor.exec_op]
    cases hg : (do
        let a ← e.get_val wordSize x
        let b ← e.get_val wordSize y
        let size ← e.get_val wordSize z
        memRes (e.memory.compare a b size) : Except ExecutionError Bool) with
    | error er => exact ⟨rfl, rfl⟩
    | ok res =>
      simp only []
      obtain ⟨n, hn⟩ := stepCond_shape e res
      rw [hn]
      exact ⟨rfl, rfl⟩
  | Cpy x y z =>
    simp only [Executor.exec_op]
    cases hg : (do
        let dest ← e.get_val wordSize x
        let src ← e.get_val wordSize y
        let size ← e.get_val wordSize z
        memRes (e.memory.copy dest src size) : Except ExecutionError Memory) with
    | error er => exact ⟨rfl, rfl⟩
    | ok m => exact ⟨rfl, rfl⟩

theorem exec_not_special_inv (h : HostOps) (e : Executor) (op : Op)
    (hna : op.is_app = false) (hnc : op.is_clf = false) (hnr : op.is_ret = false)
    (ih : e.prepared_call = true → 1 ≤ e.call_stack.length)
    (hp : (e.exec_op h op).1.prepared_call = true) :
    1 ≤ (e.exec_op h op).1.call_stack.length := by
  have hsp := exec_op_stack_prepared h e op hna hnc hnr
  rw [hsp.2] at hp
  rw [hsp.1]
  exact ih hp

theorem current_call_prepared_len (e : Executor) (c : FunctionCall)
    (hp : e.prepared_call = true) (hcc : e.current_call = .ok c) :
    2 ≤ e.call_stack.length := by
  by_contra hlt
  push_neg at hlt
  rw [current_call_short e hp (by omega)] at hcc
  exact Except.noConfusion hcc

theorem current_op_ok_call (e : Executor) (op : Op) (h : e.current_op = .ok op) :
    ∃ c, e.current_call = .ok c := by
  unfold Executor.current_op at h
  cases hcc : e.current_call with
  | error er =>
    rw [hcc] at h
    exact Except.noConfusion h
  | ok c => exact ⟨c, rfl⟩

/-- C6 (amended): for every state reachable from a fresh executor through
the public surface, `prepared_call` implies at least one record on the call
stack (the `App` push precedes the flag, and every pop needs a fetch that
itself requires two records while prepared). -/
theorem c6_prepared_stack_nonempty :
    ∀ (h : HostOps) (functions : List Func) (e : Executor),
      Reach h functions e → e.prepared_call = true → 1 ≤ e.call_stack.length := by
  intro h functions e hr
  induction hr with
  | init sl hl =>
    intro hp
    exact Bool.noConfusion hp
  | call_step e fid rvp hrx ih =>
    intro hp
    unfold Executor.call at hp ⊢
    have hshape := app_shape e fid
    cases ha : e.app fid with
    | mk e1 r =>
      rw [ha] at hshape
      simp only [] at hshape
      cases r with
      | error er =>
        simp only [ha] at hp ⊢
        rcases hshape with hs | ⟨f, m, hf, hs⟩ <;> rw [hs] at hp ⊢
        · exact ih hp
        · simp [List.length_append]
      | ok u =>
        simp only [ha] at hp ⊢
        have hcshape := clf_shape e1 rvp
        cases hc : e1.clf rvp with
        | mk e2 r2 =>
          rw [hc] at hcshape
          simp only [hc] at hp ⊢
          simp only [] at hcshape
          rcases hcshape with hs | hs
          · rw [hs] at hp ⊢
            rcases hshape with hs2 | ⟨f, m, hf, hs2⟩ <;> rw [hs2] at hp ⊢
            · exact ih hp
            · simp [List.length_append]
          · rw [hs] at hp
            exact absurd hp (by simp)
  | exec_step e hrx ih =>
    intro hp
    unfold Executor.execute at hp ⊢
    cases hco : e.current_op with
    | error er =>
      simp only [hco] at hp ⊢
      exact ih hp
    | ok op =>
      simp only [hco] at hp ⊢
      cases op
      case App x =>
        simp only [Executor.exec_op] at hp ⊢
        cases hg : e.get_val wordSize x with
        | error er =>
          simp only [hg] at hp ⊢
          exact ih hp
        | ok fid =>
          simp only [hg] at hp ⊢
          have hshape := app_shape e fid
          cases ha : e.app fid with
          | mk e1 r =>
            rw [ha] at hshape
            simp only [] at hshape
            cases r with
            | ok u =>
              simp only [ha] at hp ⊢
              rcases hshape with hs | ⟨f, m, hf, hs⟩ <;> rw [hs] at hp ⊢
              · exact ih hp
              · simp [Executor.advance_pc, List.length_append]
            | error er =>
              simp only [ha] at hp ⊢
              rcases hshape with hs | ⟨f, m, hf, hs⟩ <;> rw [hs] at hp ⊢
              · exact ih hp
              · simp [List.length_append]
      case Clf x =>
        simp only [Executor.exec_op] at hp ⊢
        cases hg : e.get_val wordSize x with
        | error er =>
          simp only [hg] at hp ⊢
          exact ih hp
        | ok rvp =>
          simp only [hg] at hp ⊢
          have hcshape := clf_shape e rvp
          cases hc : e.clf rvp with
          | mk e1 r =>
            rw [hc] at hcshape
            simp only [] at hcshape
            cases r with
            | ok u =>
              simp only [hc] at hp ⊢
              rcases hcshape with hs | hs
              · rw [hs] at hp ⊢
                exact ih hp
              · rw [hs] at hp
                exact absurd hp (by simp)
            | error er =>
              simp only [hc] at hp ⊢
              rcases hcshape with hs | hs
              · rw [hs] at hp ⊢
                exact ih hp
              · rw [hs] at hp
                exact absurd hp (by simp)
      case Ret un t =>
        simp only [Executor.exec_op] at hp ⊢
        cases hsr : (if un.x = .Emp then Except.ok e else e.set_ret t.size un) with
        | error er =>
          simp only [hsr] at hp ⊢
          exact ih hp
        | ok e1 =>
          simp only [hsr] at hp ⊢
          have he1 : e1.call_stack = e.call_stack ∧ e1.prepared_call = e.prepared_call := by
            by_cases hemp : un.x = .Emp
            · rw [if_pos hemp] at hsr
              rw [← Except.ok.inj hsr]
              exact ⟨rfl, rfl⟩
            · rw [if_neg hemp] at hsr
              obtain ⟨m, hm⟩ := set_ret_memory_only _ _ _ _ hsr
              rw [hm]
              exact ⟨rfl, rfl⟩
          have hrshape := (ret_shape e1).2
          cases hrt : e1.ret with
          | mk e2 r =>
            rw [hrt] at hrshape
            simp only [] at hrshape
            have hdrop : e2.call_stack = e1.call_stack.dropLast →
                e2.prepared_call = e1.prepared_call → e2.prepared_call = true →
                1 ≤ e2.call_stack.length := by
              intro hcs hpp hpt
              have hpe : e.prepared_call = true := by
                rw [← he1.2, ← hpp]
                exact hpt
              obtain ⟨c, hcc⟩ := current_op_ok_call e _ hco
              have hlen2 := current_call_prepared_len e c hpe hcc
              rw [hcs, he1.1]
              rw [List.length_dropLast]
              omega
            cases r with
            | ok u =>
              simp only [hrt] at hp ⊢
              rcases hrshape with hs | ⟨top, m, htop, hs⟩
              · rw [hs] at hp ⊢
                rw [he1.1]
                rw [he1.2] at hp
                exact ih hp
              · rw [hs] at hp
                show 1 ≤ e2.call_stack.length
                exact hdrop (by rw [hs]) (by rw [hs]) (by rw [hs]; exact hp)
            | error er =>
              simp only [hrt] at hp ⊢
              rcases hrshape with hs | ⟨top, m, htop, hs⟩
              · rw [hs] at hp ⊢
                rw [he1.1]
                rw [he1.2] at hp
                exact ih hp
              · rw [hs] at hp
                show 1 ≤ e2.call_stack.length
                exact hdrop (by rw [hs]) (by rw [hs]) (by rw [hs]; exact hp)
      all_goals {
        apply exec_not_special_inv h e
        · rfl
        · rfl
        · rfl
        · exact ih
        · exact hp
      }

/-- C6 counterexample: from a fresh executor, `call(0,0)` then executing
`App(Val 0)` and `Ret(Emp)` — all public-surface steps — reaches a state
with `prepared_call` set and only one record on the call stack: the `Ret`
pops the prepared record without clearing the flag. -/
theorem c6_counterexample :
    Reach hostOps0 appRetFns appRetE ∧
      appRetE.prepared_call = true ∧
      appRetE.call_stack.length = 1 := by
  refine ⟨?_, rfl, rfl⟩
  exact Reach.exec_step _ (Reach.exec_step _ (Reach.call_step _ 0 0 (Reach.init 8 0)))

/-- C6 witness: the amended invariant applied to the reachable prepared
state left by the `App`-then-`Ret` trace. -/
theorem c6_witness : 1 ≤ appRetE.call_stack.length :=
  c6_prepared_stack_nonempty hostOps0 appRetFns appRetE
    (Reach.exec_step _ (Reach.exec_step _ (Reach.call_step _ 0 0 (Reach.init 8 0)))) rfl

theorem toLeBytes_length (n v : Nat) : (toLeBytes n v).length = n := by
  induction n generalizing v with
  | zero => rfl
  | succ n ih => simp [toLeBytes, ih]

theorem set_stack_length (m : Memory) (addr sz v : Nat) (m1 : Memory)
    (h : m.set addr sz v = .ok m1) : m1.stack.length = m.stack.length := by
  unfold Memory.set Memory.write_bytes at h
  by_cases h1 : addr + (toLeBytes sz v).length ≤ m.stack.length
  · rw [if_pos h1] at h
    rw [← Except.ok.inj h]
    simp only [spliceBytes, List.length_append, List.length_take, List.length_drop]
    rw [toLeBytes_length] at h1 ⊢
    omega
  · rw [if_neg h1] at h
    by_cases h2 : m.stack_limit ≤ addr ∧
        addr + (toLeBytes sz v).length ≤ m.stack_limit + m.heap.length
    · rw [if_pos h2] at h
      rw [← Except.ok.inj h]
    · rw [if_neg h2] at h
      exact Except.noConfusion h

theorem narrow_ok_inv (m : Memory) (n : Nat) (m1 : Memory) (hx : m.narrow n = .ok m1) :
    n ≤ m.stack.length ∧ m1.stack = m.stack.take (m.stack.length - n) ∧
      m1.stack.length + n = m.stack.length := by
  unfold Memory.narrow at hx
  by_cases hn : n ≤ m.stack.length
  · rw [if_pos hn] at hx
    have hh := (Except.ok.inj hx).symm
    subst hh
    refine ⟨hn, rfl, ?_⟩
    simp only [List.length_take]
    omega
  · rw [if_neg hn] at hx
    exact Except.noConfusion hx

theorem expand_ok_inv (m : Memory) (n : Nat) (m1 : Memory) (hx : m.expand n = .ok m1) :
    m1.stack = m.stack ++ List.replicate n 0 := by
  unfold Memory.expand at hx
  by_cases hn : m.stack.length + n ≤ m.stack_limit
  · rw [if_pos hn] at hx
    rw [← Except.ok.inj hx]
  · rw [if_neg hn] at hx
    exact Except.noConfusion hx

theorem ret_ok_inv (e e2 : Executor) (u : Unit) (hx : e.ret = (e2, .ok u)) :
    ∃ top m, e.call_stack.getLast? = some top ∧
      e.memory.narrow top.function.frame_size = .ok m ∧
      e2 = { e with call_stack := e.call_stack.dropLast,
                    program_counter := top.ret_program_counter, memory := m } := by
  unfold Executor.ret at hx
  cases hl : e.call_stack.getLast? with
  | none =>
    simp only [hl] at hx
    exact absurd (Prod.mk.inj hx).2 (by simp)
  | some top =>
    simp only [hl] at hx
    cases hn : e.memory.narrow top.function.frame_size with
    | ok m =>
      simp only [hn] at hx
      exact ⟨top, m, rfl, hn, (Prod.mk.inj hx).1.symm⟩
    | error er =>
      simp only [hn] at hx
      exact absurd (Prod.mk.inj hx).2 (by simp)

theorem current_call_top (e : Executor) (top : FunctionCall) (hp : e.prepared_call = false)
    (hl : e.call_stack.getLast? = some top) : e.current_call = .ok top := by
  unfold Executor.current_call
  rw [hp]
  simp only [Bool.false_eq_true, if_false, hl]

theorem set_ret_inv (e : Executor) (sz : Nat) (un : UnOp) (e1 : Executor) (c : FunctionCall)
    (hcc : e.current_call = .ok c) (h : e.set_ret sz un = .ok e1) :
    ∃ ro v m, e.read_un_operand un = .ok ro ∧ e.get_val sz ro = .ok v ∧
      e.memory.set (wadd c.ret_val_ptr 0) sz v = .ok m ∧ e1 = { e with memory := m } := by
  unfold Executor.set_ret at h
  obtain ⟨ro, hro, h⟩ := bind_eq_ok h
  obtain ⟨v, hv, h⟩ := bind_eq_ok h
  simp only [Executor.set_val, hcc, bind_ok_eq] at h
  obtain ⟨m, hm, h⟩ := bind_eq_ok h
  rw [memRes_ok] at hm
  exact ⟨ro, v, m, hro, hv, hm, (Except.ok.inj h).symm⟩

/-- C7: a `Ret(UnOp, T)` executed successfully in a non-prepared state with
a non-empty call stack writes no return value when the primary operand is
`Emp`, and otherwise reads the value as `T` in the callee's context and
writes it at address `ret_val_ptr + 0`; then the top call record is popped,
the PC is restored to its `ret_program_counter`, and the stack is narrowed
by the popped frame's size — and since `App` grows the stack by exactly
that frame size (second conjunct), the stack length returns to its
pre-`App` value. -/
theorem c7_ret_protocol :
    (∀ (h : HostOps) (e e' : Executor) (un : UnOp) (t : OpType) (r : ExecutionSuccess),
      e.prepared_call = false →
      e.current_op = .ok (.Ret un t) →
      e.execute h = (e', .ok r) →
      ∃ top, e.call_stack.getLast? = some top ∧
        e'.call_stack = e.call_stack.dropLast ∧
        e'.program_counter = top.ret_program_counter ∧
        top.function.frame_size ≤ e.memory.stack.length ∧
        e'.memory.stack.length + top.function.frame_size = e.memory.stack.length ∧
        (un.x = .Emp → e.memory.narrow top.function.frame_size = .ok e'.memory) ∧
        (un.x ≠ .Emp → ∃ ro v m1, e.read_un_operand un = .ok ro ∧
          e.get_val t.size ro = .ok v ∧
          e.memory.set (wadd top.ret_val_ptr 0) t.size v = .ok m1 ∧
          m1.narrow top.function.frame_size = .ok e'.memory)) ∧
    (∀ (e e1 : Executor) (fid : Nat) (f : Func),
      e.functions.get? fid = some f →
      e.app fid = (e1, .ok ()) →
      e1.memory.stack.length = e.memory.stack.length + f.frame_size ∧
      e1.call_stack = e.call_stack ++ [⟨f, e.memory.stack.length, 0, 0⟩]) := by
  constructor
  · intro h e e' un t r hprep hco hx
    unfold Executor.execute at hx
    rw [hco] at hx
    simp only [Executor.exec_op] at hx
    cases hsr : (if un.x = .Emp then Except.ok e else e.set_ret t.size un) with
    | error er =>
      simp only [hsr] at hx
      exact absurd (Prod.mk.inj hx).2 (by simp)
    | ok e1 =>
      simp only [hsr] at hx
      cases hrt : e1.ret with
      | mk e2 r2 =>
        simp only [hrt] at hx
        cases r2 with
        | error er => exact absurd (Prod.mk.inj hx).2 (by simp)
        | ok u =>
          have he' : e' = e2 := (Prod.mk.inj hx).1.symm
          obtain ⟨top, m, htop, hnarrow, he2⟩ := ret_ok_inv e1 e2 u hrt
          by_cases hemp : un.x = .Emp
          · rw [if_pos hemp] at hsr
            have he1 : e1 = e := (Except.ok.inj hsr).symm
            subst he1
            obtain ⟨hle, _, hlen⟩ := narrow_ok_inv _ _ _ hnarrow
            refine ⟨top, htop, ?_, ?_, hle, ?_, ?_, ?_⟩
            · rw [he', he2]
            · rw [he', he2]
            · rw [he', he2]
              exact hlen
            · intro _
              rw [he', he2]
              exact hnarrow
            · intro hne
              exact absurd hemp hne
          · rw [if_neg hemp] at hsr
            obtain ⟨c, hcc⟩ := current_op_ok_call e _ hco
            obtain ⟨ro, v, m1, hro, hv, hset, he1⟩ := set_ret_inv e t.size un e1 c hcc hsr
            have htopE : e.call_stack.getLast? = some top := by
              rw [he1] at htop
              exact htop
            have hctop : c = top := by
              have := current_call_top e top hprep htopE
              rw [hcc] at this
              exact Except.ok.inj this
            subst hctop
            have hm1len : m1.stack.length = e.memory.stack.length :=
              set_stack_length _ _ _ _ _ hset
            have hnarrow1 : m1.narrow c.function.frame_size = .ok m := by
              rw [he1] at hnarrow
              exact hnarrow
            obtain ⟨hle, _, hlen⟩ := narrow_ok_inv _ _ _ hnarrow1
            refine ⟨c, htopE, ?_, ?_, ?_, ?_, ?_, ?_⟩
            · rw [he', he2, he1]
            · rw [he', he2]
            · rw [hm1len] at hle
              exact hle
            · rw [he', he2]
              show m.stack.length + c.function.frame_size = e.memory.stack.length
              rw [← hm1len]
              exact hlen
            · intro habs
              exact absurd habs hemp
            · intro _
              refine ⟨ro, v, m1, hro, hv, hset, ?_⟩
              rw [he', he2]
              exact hnarrow1
  · intro e e1 fid f hf hx
    simp only [Executor.app, hf] at hx
    cases hexp : Memory.expand e.memory f.frame_size with
    | error er =>
      simp only [hexp] at hx
      exact absurd (Prod.mk.inj hx).2 (by simp)
    | ok m =>
      simp only [hexp] at hx
      have h1 := (Prod.mk.inj hx).1.symm
      have hst := expand_ok_inv _ _ _ hexp
      constructor
      · rw [h1]
        show m.stack.length = e.memory.stack.length + f.frame_size
        rw [hst]
        simp
      · rw [h1]

/-- C7 witness: the concrete `Ret(Loc(0), U8)` step pops the callee record,
restores the caller's PC 1, and narrows the stack by the callee frame. -/
theorem c7_witness :
    (retE.execute hostOps0).1.call_stack = retE.call_stack.dropLast ∧
      (retE.execute hostOps0).1.program_counter = 1 ∧
      (retE.execute hostOps0).1.memory.stack.length + 4 = retE.memory.stack.length := by
  obtain ⟨top, htop, h1, h2, h3, h4, _⟩ :=
    c7_ret_protocol.1 hostOps0 retE (retE.execute hostOps0).1 (UnOp.new (.Loc 0)) .U8 .Ok
      rfl rfl rfl
  have he : top = ⟨⟨4, [.Ret (UnOp.new (.Loc 0)) .U8]⟩, 4, 0, 1⟩ := by
    have hrfl : retE.call_stack.getLast? =
        some (⟨⟨4, [.Ret (UnOp.new (.Loc 0)) .U8]⟩, 4, 0, 1⟩ : FunctionCall) := rfl
    rw [hrfl] at htop
    exact (Option.some.inj htop).symm
  subst he
  exact ⟨h1, h2, h4⟩
